import Mathlib

/-!
A verification development for the `dynajson` Go library (package `dynajson`,
file `dynajson.go`).  The dynamic JSON tree held in Go `interface{}` values is
embedded as the inductive type `RawValue`; the `JSONElement` wrapper struct,
its navigation, mutation, iteration and serialization operations are embedded
as pure Lean functions.  Go panics are modelled by `Option` results (`none` =
panic); diagnostics routed through the warn/fatal callbacks are reified as
lists of `Diag` events; numbers are modelled by integers (the Go code stores
JSON numbers as `float64` and prints them with `%v`, whose shortest-form
output re-parses to the same value; the integer model captures this exactly
on integral numbers).
-/

namespace Dynajson

/-- Left brace character, kept out of literals for hygiene. -/
def lbrace : Char := Char.ofNat 123

/-- Right brace character. -/
def rbrace : Char := Char.ofNat 125

/-- The dynamic JSON value stored in a Go `interface{}`.  The Go code
distinguishes arrays held by value (`[]interface{}`, produced by the byte
parser) from arrays held by pointer (`*[]interface{}`, produced by
`NewAsArray`, `PutEmptyArray` and variadic `Put`); `arr` and `arrP`
model the two representations.  Objects model `map[string]interface{}` as
association lists (key lookup by string equality). -/
inductive RawValue : Type where
  | null : RawValue
  | boolean : Bool → RawValue
  | num : Int → RawValue
  | str : String → RawValue
  | arr : List RawValue → RawValue
  | arrP : List RawValue → RawValue
  | obj : List (String × RawValue) → RawValue

/-- `IsNil` on a raw value: Go `me.Raw() == nil`. -/
def RawValue.isNil : RawValue → Bool
  | .null => true
  | _ => false

/-- Character-level body of `escapeJSONString`: the loop over runes that
writes a single backslash (rune 92) before a double quote (rune 34) or a
backslash, and the rune itself, into the buffer. -/
def escChars : List Char → List Char
  | [] => []
  | c :: rest => (if c = '"' ∨ c = '\\' then ['\\', c] else [c]) ++ escChars rest

/-- Go `escapeJSONString`: escapes `"` and `\` with a single backslash,
leaving every other character untouched. -/
def escapeJSONString (s : String) : String := ⟨escChars s.data⟩

/-- Decimal digit character for `d < 10`. -/
def digitCh (d : Nat) : Char := Char.ofNat (48 + d)

/-- Decimal digits of a natural number, most significant first. -/
def natDigits (n : Nat) : List Char :=
  if _h : n < 10 then [digitCh n]
  else natDigits (n / 10) ++ [digitCh (n % 10)]
decreasing_by exact Nat.div_lt_self (by omega) (by omega)

/-- Fuel-driven digit renderer, kernel-reducible on concrete inputs. -/
def natCharsGo : Nat → Nat → List Char → List Char
  | 0, _, acc => acc
  | f + 1, n, acc =>
    if n < 10 then digitCh n :: acc
    else natCharsGo f (n / 10) (digitCh (n % 10) :: acc)

/-- Decimal digits of a natural number, most significant first. -/
def natChars (n : Nat) : List Char := natCharsGo (n + 1) n []

/-- Decimal rendering of an integer, as Go `fmt.Sprintf` with a `%v` verb
renders an integral `float64`. -/
def intChars (n : Int) : List Char :=
  if n < 0 then '-' :: natChars n.natAbs else natChars n.toNat

mutual

/-- Go `Dump(d *interface{}, buf *bytes.Buffer)`, threading the buffer
explicitly.  A pointer array is dereferenced and dumped as the value array.
Arrays and objects append `", "` after every entry and truncate the last two
characters of the buffer when at least one entry was written.  Strings and
object keys pass through `escapeJSONString`.  The `default` branch of the Go
type switch prints with the `%v` verb: `true`/`false` for booleans, decimal
for numbers, and the text `<nil>` for a nil interface (JSON null). -/
def Dump : RawValue → List Char → List Char
  | .null, buf => buf ++ "<nil>".data
  | .boolean b, buf => buf ++ (if b then "true" else "false").data
  | .num n, buf => buf ++ intChars n
  | .str s, buf => buf ++ '"' :: (escChars s.data ++ ['"'])
  | .arr xs, buf | .arrP xs, buf =>
    let buf1 := buf ++ ['[']
    let buf2 := dumpItems xs buf1
    let buf3 := if xs.length > 0 then buf2.take (buf2.length - 2) else buf2
    buf3 ++ [']']
  | .obj kvs, buf =>
    let buf1 := buf ++ [lbrace]
    let buf2 := dumpMembers kvs buf1
    let buf3 := if kvs.length > 0 then buf2.take (buf2.length - 2) else buf2
    buf3 ++ [rbrace]

/-- The array loop of `Dump`: each element followed by `", "`. -/
def dumpItems : List RawValue → List Char → List Char
  | [], buf => buf
  | x :: rest, buf => dumpItems rest (Dump x buf ++ [',', ' '])

/-- The object loop of `Dump`: each escaped key, `": "`, the value and
`", "`.  The Go map iteration order is unspecified; the model iterates the
association list in storage order (one admissible order). -/
def dumpMembers : List (String × RawValue) → List Char → List Char
  | [], buf => buf
  | (k, v) :: rest, buf =>
    dumpMembers rest (Dump v (buf ++ '"' :: (escChars k.data ++ ['"', ':', ' '])) ++ [',', ' '])

end

/-- The serializer as a string-producing function (`Dump` into an empty
buffer). -/
def dumpString (v : RawValue) : String := ⟨Dump v []⟩

mutual

/-- Separator-form rendering of a value: provably equal to `Dump` into an
empty buffer, with explicit `", "` interleaving instead of append-then-
truncate. -/
def dumpChars : RawValue → List Char
  | .null => "<nil>".data
  | .boolean b => (if b then "true" else "false").data
  | .num n => intChars n
  | .str s => '"' :: (escChars s.data ++ ['"'])
  | .arr xs | .arrP xs => '[' :: (dumpSeq xs ++ [']'])
  | .obj kvs => lbrace :: (dumpMems kvs ++ [rbrace])

/-- Array entries joined by `", "`. -/
def dumpSeq : List RawValue → List Char
  | [] => []
  | [x] => dumpChars x
  | x :: y :: rest => dumpChars x ++ ',' :: ' ' :: dumpSeq (y :: rest)

/-- Object entries (escaped key, `": "`, value) joined by `", "`. -/
def dumpMems : List (String × RawValue) → List Char
  | [] => []
  | [(k, v)] => '"' :: (escChars k.data ++ ['"', ':', ' ']) ++ dumpChars v
  | (k, v) :: m2 :: rest =>
    ('"' :: (escChars k.data ++ ['"', ':', ' ']) ++ dumpChars v) ++ ',' :: ' ' :: dumpMems (m2 :: rest)

end

/-- The raw text appended to the buffer by the array loop of `Dump`: every
entry followed by `", "` (before truncation). -/
def trailItems : List RawValue → List Char
  | [] => []
  | x :: rest => dumpChars x ++ ',' :: ' ' :: trailItems rest

/-- The raw text appended to the buffer by the object loop of `Dump`. -/
def trailMems : List (String × RawValue) → List Char
  | [] => []
  | (k, v) :: rest =>
    ('"' :: (escChars k.data ++ ['"', ':', ' ']) ++ dumpChars v) ++ ',' :: ' ' :: trailMems rest

/-- The serialized text following the first entry of a nonempty array:
`", "` before each further entry. -/
def sepSeq : List RawValue → List Char
  | [] => []
  | y :: t => ',' :: ' ' :: (dumpChars y ++ sepSeq t)

/-- The serialized text following the first member of a nonempty object. -/
def sepMems : List (String × RawValue) → List Char
  | [] => []
  | (k, v) :: t =>
    ',' :: ' ' :: ('"' :: (escChars k.data ++ ['"', ':', ' ']) ++ (dumpChars v ++ sepMems t))

/-- The wrapper struct `JSONElement`.  The function-valued fields
`WarnHandler`/`FatalHandler` are modelled by their presence (`nil` or not),
which together with the reified diagnostic events below determines exactly
which callback, if any, receives each diagnostic. -/
structure JSONElement where
  raw : RawValue
  hasWarnHandler : Bool
  hasFatalHandler : Bool
  Level : Nat
  Readonly : Bool

/-- A diagnostic delivered to a callback: either to the warn handler or to
the fatal handler. -/
inductive Diag : Type where
  | warnEvent : String → Diag
  | fatalEvent : String → Diag

/-- Go `(me *JSONElement) Warn`: delivered to the warn handler when one is
set, silently dropped otherwise. -/
def JSONElement.Warn (me : JSONElement) (msg : String) : List Diag :=
  if me.hasWarnHandler then [.warnEvent msg] else []

/-- Go `(me *JSONElement) Fatal`: delivered to the fatal handler when set;
otherwise routed to the warn handler when set; otherwise dropped. -/
def JSONElement.Fatal (me : JSONElement) (msg : String) : List Diag :=
  if me.hasFatalHandler then [.fatalEvent msg]
  else if me.hasWarnHandler then [.warnEvent msg]
  else []

/-- Go `IsNil`: the wrapped value is the nil interface. -/
def JSONElement.IsNil (me : JSONElement) : Bool := me.raw.isNil

/-- Go `New`: wraps a value with zeroed flags. -/
def New (obj : RawValue) : JSONElement := ⟨obj, false, false, 0, false⟩

/-- Go `NewAsMap`: fresh empty object root. -/
def NewAsMap : JSONElement := New (.obj [])

/-- Go `NewAsArray`: fresh empty pointer-held array root. -/
def NewAsArray : JSONElement := New (.arrP [])

/-- Go `child`: the derived element constructor used by every navigation and
iteration call.  It copies the warn handler, the `Readonly` flag and
`Level + 1` from the parent, and leaves the fatal handler unset. -/
def JSONElement.child (me : JSONElement) (raw : RawValue) : JSONElement :=
  ⟨raw, me.hasWarnHandler, false, me.Level + 1, me.Readonly⟩

/-- The kind of error produced by a failing mutation, abstracting the
`fmt.Errorf` message built at each failure site. -/
inductive ErrKind : Type where
  | nullState : ErrKind
  | readonlyViolation : ErrKind
  | notMapType : ErrKind
  | notEditableArrayType : ErrKind
  | badArgumentType : ErrKind
deriving DecidableEq

/-- Outcome of a mutation call: the returned error (if any), the underlying
value afterwards, and the diagnostics delivered to callbacks. -/
structure MutResult where
  err : Option ErrKind
  raw : RawValue
  diags : List Diag

/-- An `interface{}` argument to `Put`/`Append`: either a plain value or a
`*JSONElement` (which `elm2Raw` unwraps before storing). -/
inductive PutVal : Type where
  | rawVal : RawValue → PutVal
  | elemVal : JSONElement → PutVal

/-- Go `elm2Raw`: replaces a `*JSONElement` argument by its wrapped value. -/
def elm2Raw : PutVal → RawValue
  | .rawVal v => v
  | .elemVal e => e.raw

/-- Go map lookup `m[key]` (presence-reporting form). -/
def mapGet : List (String × RawValue) → String → Option RawValue
  | [], _ => none
  | (k, v) :: rest, key => if k = key then some v else mapGet rest key

/-- Go map assignment `m[key] = v`. -/
def mapSet : List (String × RawValue) → String → RawValue → List (String × RawValue)
  | [], key, v => [(key, v)]
  | (k, w) :: rest, key, v =>
    if k = key then (key, v) :: rest else (k, w) :: mapSet rest key v

/-- Go `delete(m, key)`. -/
def mapDel : List (String × RawValue) → String → List (String × RawValue)
  | [], _ => []
  | (k, w) :: rest, key => if k = key then rest else (k, w) :: mapDel rest key

/-- Go `Put(key, val1, vals...)`: fails on a nil value, then on the readonly
flag, then unless the wrapped value is a map; one trailing value is stored
directly, two or more are wrapped into a fresh pointer-held array. -/
def JSONElement.Put (me : JSONElement) (key : String) (val1 : PutVal) (vals : List PutVal) :
    MutResult :=
  if me.IsNil then
    ⟨some .nullState, me.raw, me.Fatal ("key=[" ++ key ++ "]: me.raw is null")⟩
  else if me.Readonly then
    ⟨some .readonlyViolation, me.raw, me.Fatal ("key=[" ++ key ++ "]: me.Readonly is true")⟩
  else
    match me.raw with
    | .obj kvs =>
      match vals with
      | [] => ⟨none, .obj (mapSet kvs key (elm2Raw val1)), []⟩
      | _ :: _ => ⟨none, .obj (mapSet kvs key (.arrP ((val1 :: vals).map elm2Raw))), []⟩
    | _ => ⟨some .notMapType, me.raw, me.Fatal ("key=[" ++ key ++ "]: Not Map Type")⟩

/-- Go `Append(val1, vals...)`: fails on nil, then readonly, then unless the
wrapped value is a pointer-held array (`*[]interface{}`); appends the
arguments in order (each unwrapped by `updateElms2Raws`). -/
def JSONElement.Append (me : JSONElement) (val1 : PutVal) (vals : List PutVal) : MutResult :=
  if me.IsNil then ⟨some .nullState, me.raw, me.Fatal "me.raw is null"⟩
  else if me.Readonly then ⟨some .readonlyViolation, me.raw, me.Fatal "me.Readonly is true"⟩
  else
    match me.raw with
    | .arrP xs => ⟨none, .arrP (xs ++ (val1 :: vals).map elm2Raw), []⟩
    | _ => ⟨some .notEditableArrayType, me.raw, me.Fatal "Not Editable-Array Type"⟩

/-- Go `DeleteByKey`: nil and readonly checks, map check, then idempotent
removal — an absent key only warns. -/
def JSONElement.DeleteByKey (me : JSONElement) (key : String) : MutResult :=
  if me.IsNil then
    ⟨some .nullState, me.raw, me.Fatal ("key=[" ++ key ++ "]: me.raw is null")⟩
  else if me.Readonly then
    ⟨some .readonlyViolation, me.raw, me.Fatal ("key=[" ++ key ++ "]: me.Readonly is true")⟩
  else
    match me.raw with
    | .obj kvs =>
      match mapGet kvs key with
      | none => ⟨none, .obj kvs, me.Warn ("DeleteByKey(" ++ key ++ "): No Key")⟩
      | some _ => ⟨none, .obj (mapDel kvs key), []⟩
    | _ => ⟨some .notMapType, me.raw, me.Fatal ("key=[" ++ key ++ "]: Not Map Type")⟩

/-- Go `DeleteByPos`: nil and readonly checks, editable-array check, then the
`pos >= len` overflow warning; an in-range position is removed by
`remove(slice, pos)`.  A negative `pos` passes the overflow test and makes
the slice expression `slice[:pos]` panic, modelled by `none`. -/
def JSONElement.DeleteByPos (me : JSONElement) (pos : Int) : Option MutResult :=
  if me.IsNil then some ⟨some .nullState, me.raw, me.Fatal "me.raw is null"⟩
  else if me.Readonly then
    some ⟨some .readonlyViolation, me.raw, me.Fatal "me.Readonly is true"⟩
  else
    match me.raw with
    | .arrP xs =>
      if (xs.length : Int) ≤ pos then
        some ⟨none, .arrP xs, me.Warn "DeleteByPos: Overflow"⟩
      else if pos < 0 then none
      else some ⟨none, .arrP (xs.take pos.toNat ++ xs.drop (pos.toNat + 1)), []⟩
    | _ => some ⟨some .notEditableArrayType, me.raw, me.Fatal "Not Editable-Array Type"⟩

/-- An `interface{}` argument to `Delete`, dispatched on its dynamic type. -/
inductive DelArg : Type where
  | posArg : Int → DelArg
  | keyArg : String → DelArg
  | otherArg : DelArg

/-- Go `Delete`: nil check, then dispatch on the dynamic argument type; any
type other than `int` or `string` is a bad-argument error. -/
def JSONElement.Delete (me : JSONElement) (arg : DelArg) : Option MutResult :=
  if me.IsNil then some ⟨some .nullState, me.raw, me.Fatal "me.raw is null"⟩
  else
    match arg with
    | .posArg i => me.DeleteByPos i
    | .keyArg s => some (me.DeleteByKey s)
    | .otherArg => some ⟨some .badArgumentType, me.raw, me.Fatal "Bad Argument Type"⟩

/-- Go `SelectByKey`: a nil value or a non-map wrapped value warns and
yields a Null child; otherwise the child wraps `m[key]`, whose zero value on
an absent key is nil — with no warning. -/
def JSONElement.SelectByKey (me : JSONElement) (key : String) : JSONElement × List Diag :=
  if me.IsNil then (me.child .null, me.Warn ("key=[" ++ key ++ "]: SelectByKey: Null Object"))
  else
    match me.raw with
    | .obj kvs => (me.child ((mapGet kvs key).getD .null), [])
    | _ => (me.child .null, me.Warn ("key=[" ++ key ++ "]: SelectByKey: Cast"))

/-- Go `SelectByPos`: nil and non-array values warn and yield a Null child;
`pos >= len` warns (Overflow) and yields a Null child; an in-range position
yields the element child.  A negative `pos` passes the overflow test and the
index expression `(*refArr)[pos]` panics, modelled by `none`. -/
def JSONElement.SelectByPos (me : JSONElement) (pos : Int) : Option (JSONElement × List Diag) :=
  if me.IsNil then some (me.child .null, me.Warn "SelectByPos: Null Object")
  else
    match me.raw with
    | .arr xs | .arrP xs =>
      if (xs.length : Int) ≤ pos then
        some (me.child .null, me.Warn "SelectByPos: Overflow")
      else if pos < 0 then none
      else some (me.child (xs.getD pos.toNat .null), [])
    | _ => some (me.child .null, me.Warn "SelectByPos: Not Array")

/-- A path step handed to `Select`, dispatched on its dynamic type. -/
inductive SelKey : Type where
  | posKey : Int → SelKey
  | strKey : String → SelKey
  | otherKey : SelKey

/-- Go `Select(key1, keys...)` on int/string path steps: a nil value warns
and stops with a Null child; a step of any other type warns (Cast) and stops
with a Null child; otherwise the step is resolved by `SelectByPos` or
`SelectByKey` and the remaining steps recurse on the child.  (The
`[]string`/`[]interface{}` convenience arguments of the Go code are
flattened into exactly this step list before dispatch and are not modelled
separately.) -/
def JSONElement.Select (me : JSONElement) (key1 : SelKey) (keys : List SelKey) :
    Option (JSONElement × List Diag) :=
  if me.IsNil then some (me.child .null, me.Warn "Select: Null Object")
  else
    match key1 with
    | .otherKey => some (me.child .null, me.Warn "Select: Cast")
    | .posKey i =>
      match me.SelectByPos i with
      | none => none
      | some (next, ds) =>
        match keys with
        | [] => some (next, ds)
        | k :: ks =>
          match next.Select k ks with
          | none => none
          | some (fin, ds2) => some (fin, ds ++ ds2)
    | .strKey s =>
      match me.SelectByKey s with
      | (next, ds) =>
        match keys with
        | [] => some (next, ds)
        | k :: ks =>
          match next.Select k ks with
          | none => none
          | some (fin, ds2) => some (fin, ds ++ ds2)

/-- Go `Count`: container sizes for maps and both array representations, `0`
with a warning for nil, and `1` with a `Not Container` warning for every
other (scalar) value. -/
def JSONElement.Count (me : JSONElement) : Int × List Diag :=
  if me.IsNil then (0, me.Warn "Count: Null Object")
  else
    match me.raw with
    | .obj kvs => (kvs.length, [])
    | .arr xs | .arrP xs => (xs.length, [])
    | _ => (1, me.Warn "Count: Not Container")

/-- Go `AsArray`: children of both array representations in index order; nil
or non-array values warn and give an empty list. -/
def JSONElement.AsArray (me : JSONElement) : List JSONElement × List Diag :=
  if me.IsNil then ([], me.Warn "AsArray: Null Object")
  else
    match me.raw with
    | .arr xs | .arrP xs => (xs.map me.child, [])
    | _ => ([], me.Warn "AsArray: Cast")

/-- Go `PutEmptyMap`: nil and readonly checks, `Put key (empty map)`, then
`SelectByKey key` on the updated value. -/
def JSONElement.PutEmptyMap (me : JSONElement) (key : String) :
    Option JSONElement × Option ErrKind × RawValue × List Diag :=
  if me.IsNil then
    (none, some .nullState, me.raw, me.Fatal ("key=[" ++ key ++ "]: me.raw is null"))
  else if me.Readonly then
    (none, some .readonlyViolation, me.raw, me.Fatal ("key=[" ++ key ++ "]: me.Readonly is true"))
  else
    let r := me.Put key (.rawVal (.obj [])) []
    match r.err with
    | some k => (none, some k, r.raw, r.diags)
    | none =>
      let sel := JSONElement.SelectByKey { me with raw := r.raw } key
      (some sel.1, none, r.raw, r.diags ++ sel.2)

/-- Go `PutEmptyArray`: as `PutEmptyMap` with a fresh pointer-held array. -/
def JSONElement.PutEmptyArray (me : JSONElement) (key : String) :
    Option JSONElement × Option ErrKind × RawValue × List Diag :=
  if me.IsNil then
    (none, some .nullState, me.raw, me.Fatal ("key=[" ++ key ++ "]: me.raw is null"))
  else if me.Readonly then
    (none, some .readonlyViolation, me.raw, me.Fatal ("key=[" ++ key ++ "]: me.Readonly is true"))
  else
    let r := me.Put key (.rawVal (.arrP [])) []
    match r.err with
    | some k => (none, some k, r.raw, r.diags)
    | none =>
      let sel := JSONElement.SelectByKey { me with raw := r.raw } key
      (some sel.1, none, r.raw, r.diags ++ sel.2)

/-- Lexicographic comparison of character lists by code point, the order
`sort.Strings` induces on valid Unicode strings. -/
def strLeB : List Char → List Char → Bool
  | [], _ => true
  | _ :: _, [] => false
  | a :: as, b :: bs =>
    if a.toNat < b.toNat then true
    else if b.toNat < a.toNat then false
    else strLeB as bs

/-- Lexicographic string order. -/
def strLe (s t : String) : Prop := strLeB s.data t.data = true

instance : DecidableRel strLe := fun s t =>
  inferInstanceAs (Decidable (strLeB s.data t.data = true))

/-- Sorting used by `EachMap` (Go `sort.Strings`). -/
def sortStrings (ks : List String) : List String :=
  List.insertionSort strLe ks

/-- The visiting loop of `EachMap` over the sorted key list: the callback
returns a continue flag and an optional error; an error stops the loop and
propagates, a false flag stops the loop silently. -/
def eachMapVisit (me : JSONElement) (kvs : List (String × RawValue))
    (cb : String → JSONElement → Bool × Option String) :
    List String → List String × Option String
  | [] => ([], none)
  | k :: rest =>
    let r := cb k (me.child ((mapGet kvs k).getD .null))
    match r.2 with
    | some e => ([k], some e)
    | none =>
      if r.1 then
        let t := eachMapVisit me kvs cb rest
        (k :: t.1, t.2)
      else ([k], none)

/-- Go `EachMap`: errors (not warnings) on nil or non-map values; otherwise
collects the map keys, sorts them with `sort.Strings`, and visits each key
with its child in that order.  The result records the keys visited, in
order, and the propagated error, if any. -/
def JSONElement.EachMap (me : JSONElement)
    (cb : String → JSONElement → Bool × Option String) : List String × Option String :=
  if me.IsNil then ([], some "EachMap: Null Object")
  else
    match me.raw with
    | .obj kvs => eachMapVisit me kvs cb (sortStrings (kvs.map Prod.fst))
    | _ => ([], some "EachMap: Cast")

/-- The visiting loop of `EachArray` in index order. -/
def eachArrayVisit (me : JSONElement) (cb : Int → JSONElement → Bool × Option String) :
    Int → List RawValue → List Int × Option String
  | _, [] => ([], none)
  | i, v :: rest =>
    let r := cb i (me.child v)
    match r.2 with
    | some e => ([i], some e)
    | none =>
      if r.1 then
        let t := eachArrayVisit me cb (i + 1) rest
        (i :: t.1, t.2)
      else ([i], none)

/-- Go `EachArray`: errors on nil or non-array values; otherwise visits both
array representations in index order `0..n-1`.  The result records the
indices visited, in order, and the propagated error, if any. -/
def JSONElement.EachArray (me : JSONElement)
    (cb : Int → JSONElement → Bool × Option String) : List Int × Option String :=
  if me.IsNil then ([], some "EachArray: Null Object")
  else
    match me.raw with
    | .arr xs | .arrP xs => eachArrayVisit me cb 0 xs
    | _ => ([], some "EachArray: Cast")

/-- Go `(me *JSONElement) String()`: empty for a nil value, otherwise `Dump`
into a fresh buffer. -/
def JSONElement.toGoString (me : JSONElement) : String :=
  if me.raw.isNil then "" else dumpString me.raw

/-! ### The external JSON parser

`NewByBytes` delegates to `encoding/json`'s `json.Unmarshal`, an external
collaborator of the repository.  The definitions below are therefore
modelled from the spec: an "RFC 8259-ish" parser producing the untyped tree
(objects as maps, arrays as value arrays, numbers, strings, booleans,
null), rejecting malformed input, raw control characters inside strings and
trailing garbage.  String escapes are modelled for the escape sequences the
serializer can emit (`\"`, `\\`, and `\/`); numbers are modelled on
integral numerals, matching the integer model of `RawValue.num`. -/

/-- JSON insignificant whitespace. -/
def isWs (c : Char) : Bool := c = ' ' ∨ c = '\t' ∨ c = '\n' ∨ c = '\r'

/-- Skip insignificant whitespace. -/
def skipWs : List Char → List Char
  | [] => []
  | c :: rest => if isWs c then skipWs rest else c :: rest

/-- Numeric value of a decimal digit character. -/
def charVal (c : Char) : Nat := c.toNat - 48

/-- ASCII decimal digit test. -/
def isDigitCh (c : Char) : Bool := 48 ≤ c.toNat && c.toNat ≤ 57

/-- Longest leading run of decimal digits, and the remainder. -/
def takeDigits : List Char → List Char × List Char
  | [] => ([], [])
  | c :: rest =>
    if isDigitCh c then
      let p := takeDigits rest
      (c :: p.1, p.2)
    else ([], c :: rest)

/-- Value of a digit run, most significant first. -/
def digitsToNat (ds : List Char) : Nat :=
  ds.foldl (fun a c => 10 * a + charVal c) 0

/-- Modelled from the spec: the string scanner of the external parser.  The
opening quote has been consumed; scans to the next unescaped quote,
unescaping `\"`, `\\` and `\/`, and rejecting raw control characters
(below 0x20) and unterminated strings. -/
def parseStrChars : List Char → Option (List Char × List Char)
  | [] => none
  | c :: rest =>
    if c = '"' then some ([], rest)
    else if c = '\\' then
      match rest with
      | [] => none
      | e :: rest2 =>
        if e = '"' ∨ e = '\\' ∨ e = '/' then
          match parseStrChars rest2 with
          | none => none
          | some (s, r) => some (e :: s, r)
        else none
    else if c.toNat < 32 then none
    else
      match parseStrChars rest with
      | none => none
      | some (s, r) => some (c :: s, r)

mutual

/-- Modelled from the spec: the value parser of the external
`encoding/json` collaborator, fueled to bound the recursion.  Returns the
parsed value and the unconsumed remainder. -/
def parseVal : Nat → List Char → Option (RawValue × List Char)
  | 0, _ => none
  | Nat.succ f, cs =>
    match skipWs cs with
    | [] => none
    | c :: r =>
      if c = '[' then
        match skipWs r with
        | [] => none
        | c2 :: r2 =>
          if c2 = ']' then some (.arr [], r2)
          else
            match parseVal f (c2 :: r2) with
            | none => none
            | some (x, r3) =>
              match parseArrTail f r3 with
              | none => none
              | some (xs, r4) => some (.arr (x :: xs), r4)
      else if c = lbrace then
        match skipWs r with
        | [] => none
        | c2 :: r2 =>
          if c2 = rbrace then some (.obj [], r2)
          else
            match parseMember f (c2 :: r2) with
            | none => none
            | some (kv, r3) =>
              match parseObjTail f r3 with
              | none => none
              | some (kvs, r4) => some (.obj (kv :: kvs), r4)
      else if c = '"' then
        match parseStrChars r with
        | none => none
        | some (s, r2) => some (.str ⟨s⟩, r2)
      else if c = 't' then
        if r.take 3 = ['r', 'u', 'e'] then some (.boolean true, r.drop 3) else none
      else if c = 'f' then
        if r.take 4 = ['a', 'l', 's', 'e'] then some (.boolean false, r.drop 4) else none
      else if c = 'n' then
        if r.take 3 = ['u', 'l', 'l'] then some (.null, r.drop 3) else none
      else if c = '-' then
        match takeDigits r with
        | ([], _) => none
        | (ds, rest) => some (.num (-(digitsToNat ds : Int)), rest)
      else if isDigitCh c then
        match takeDigits (c :: r) with
        | (ds, rest) => some (.num ((digitsToNat ds : Int)), rest)
      else none

/-- Remaining array entries: a comma followed by a value, until the closing
bracket. -/
def parseArrTail : Nat → List Char → Option (List RawValue × List Char)
  | 0, _ => none
  | Nat.succ f, cs =>
    match skipWs cs with
    | [] => none
    | c :: r =>
      if c = ',' then
        match parseVal f r with
        | none => none
        | some (x, r2) =>
          match parseArrTail f r2 with
          | none => none
          | some (xs, r3) => some (x :: xs, r3)
      else if c = ']' then some ([], r)
      else none

/-- One object member: a quoted key, a colon, and a value. -/
def parseMember : Nat → List Char → Option ((String × RawValue) × List Char)
  | 0, _ => none
  | Nat.succ f, cs =>
    match skipWs cs with
    | [] => none
    | c :: r =>
      if c = '"' then
        match parseStrChars r with
        | none => none
        | some (ks, r2) =>
          match skipWs r2 with
          | [] => none
          | c2 :: r3 =>
            if c2 = ':' then
              match parseVal f r3 with
              | none => none
              | some (v, r4) => some ((⟨ks⟩, v), r4)
            else none
      else none

/-- Remaining object members: a comma followed by a member, until the
closing brace. -/
def parseObjTail : Nat → List Char → Option (List (String × RawValue) × List Char)
  | 0, _ => none
  | Nat.succ f, cs =>
    match skipWs cs with
    | [] => none
    | c :: r =>
      if c = ',' then
        match parseMember f r with
        | none => none
        | some (kv, r2) =>
          match parseObjTail f r2 with
          | none => none
          | some (kvs, r3) => some (kv :: kvs, r3)
      else if c = rbrace then some ([], r)
      else none

end

/-- Go `NewByBytes` via the external parser: parse one value, reject
malformed input and trailing garbage.  The fuel `length + 1` is sufficient
for every parse that can succeed, since consuming a value consumes at least
one character per unit of fuel spent. -/
def NewByBytes (s : String) : Option RawValue :=
  match parseVal (s.data.length + 1) s.data with
  | none => none
  | some (v, rest) => if skipWs rest = [] then some v else none

mutual

/-- Collapse the pointer-array representation into the value-array one:
the structural-equality representative for the spec's single Array
variant (the byte parser only ever produces value arrays). -/
def deref : RawValue → RawValue
  | .null => .null
  | .boolean b => .boolean b
  | .num n => .num n
  | .str s => .str s
  | .arr xs | .arrP xs => .arr (derefList xs)
  | .obj kvs => .obj (derefMembers kvs)

/-- `deref` on array entries. -/
def derefList : List RawValue → List RawValue
  | [] => []
  | x :: rest => deref x :: derefList rest

/-- `deref` on object members. -/
def derefMembers : List (String × RawValue) → List (String × RawValue)
  | [] => []
  | (k, v) :: rest => (k, deref v) :: derefMembers rest

end

/-- Two trees are structurally equal when they agree after collapsing the
two array representations. -/
def structEq (v w : RawValue) : Prop := deref v = deref w

/-- A string within the round-trip fragment of the claim: no control
characters and no non-BMP characters. -/
def strOk (s : String) : Bool :=
  s.data.all fun c => decide (32 ≤ c.toNat) && decide (c.toNat < 65536)

mutual

/-- The fragment of values for which the claim asserts the round trip: no
Null anywhere, and every string (value or key) free of control and non-BMP
characters. -/
def roundtripSafe : RawValue → Bool
  | .null => false
  | .boolean _ => true
  | .num _ => true
  | .str s => strOk s
  | .arr xs | .arrP xs => roundtripSafeList xs
  | .obj kvs => roundtripSafeMembers kvs

/-- `roundtripSafe` on array entries. -/
def roundtripSafeList : List RawValue → Bool
  | [] => true
  | x :: rest => roundtripSafe x && roundtripSafeList rest

/-- `roundtripSafe` on object members. -/
def roundtripSafeMembers : List (String × RawValue) → Bool
  | [] => true
  | (k, v) :: rest => strOk k && roundtripSafe v && roundtripSafeMembers rest

end

mutual

/-- Fuel needed by `parseVal` on the serialized form of a value. -/
def needVal : RawValue → Nat
  | .arr [] | .arrP [] => 1
  | .arr (x :: xs) | .arrP (x :: xs) => 1 + needVal x + needTail xs
  | .obj [] => 1
  | .obj ((_, v) :: kvs) => 1 + (1 + needVal v) + needObjTail kvs
  | _ => 1

/-- Fuel needed by `parseArrTail` on the remaining serialized entries. -/
def needTail : List RawValue → Nat
  | [] => 1
  | x :: xs => 1 + needVal x + needTail xs

/-- Fuel needed by `parseObjTail` on the remaining serialized members. -/
def needObjTail : List (String × RawValue) → Nat
  | [] => 1
  | (_, v) :: kvs => 1 + (1 + needVal v) + needObjTail kvs

end

/-- Whether a diagnostic was delivered to the fatal handler. -/
def Diag.isFatal : Diag → Bool
  | .fatalEvent _ => true
  | .warnEvent _ => false

/-- Every mutation entry point fails with the read-only error and leaves the
underlying value unchanged. -/
def mutationsFailReadonly (e : JSONElement) : Prop :=
  (∀ key v vs, (e.Put key v vs).err = some .readonlyViolation ∧ (e.Put key v vs).raw = e.raw) ∧
  (∀ v vs, (e.Append v vs).err = some .readonlyViolation ∧ (e.Append v vs).raw = e.raw) ∧
  (∀ key, (e.DeleteByKey key).err = some .readonlyViolation ∧ (e.DeleteByKey key).raw = e.raw) ∧
  (∀ pos, (e.DeleteByPos pos).map (fun r => (r.err, r.raw)) =
    some (some .readonlyViolation, e.raw)) ∧
  (∀ i, (e.Delete (.posArg i)).map (fun r => (r.err, r.raw)) =
    some (some .readonlyViolation, e.raw)) ∧
  (∀ s, (e.Delete (.keyArg s)).map (fun r => (r.err, r.raw)) =
    some (some .readonlyViolation, e.raw)) ∧
  (∀ key, (e.PutEmptyMap key).2.1 = some .readonlyViolation ∧
    (e.PutEmptyMap key).2.2.1 = e.raw) ∧
  (∀ key, (e.PutEmptyArray key).2.1 = some .readonlyViolation ∧
    (e.PutEmptyArray key).2.2.1 = e.raw)

/-- Every mutation entry point fails with the null-state error (checked
before the read-only flag) and leaves the underlying value unchanged. -/
def mutationsFailNull (e : JSONElement) : Prop :=
  (∀ key v vs, (e.Put key v vs).err = some .nullState ∧ (e.Put key v vs).raw = e.raw) ∧
  (∀ v vs, (e.Append v vs).err = some .nullState ∧ (e.Append v vs).raw = e.raw) ∧
  (∀ key, (e.DeleteByKey key).err = some .nullState ∧ (e.DeleteByKey key).raw = e.raw) ∧
  (∀ pos, (e.DeleteByPos pos).map (fun r => (r.err, r.raw)) = some (some .nullState, e.raw)) ∧
  (∀ i, (e.Delete (.posArg i)).map (fun r => (r.err, r.raw)) = some (some .nullState, e.raw)) ∧
  (∀ s, (e.Delete (.keyArg s)).map (fun r => (r.err, r.raw)) = some (some .nullState, e.raw)) ∧
  (∀ key, (e.PutEmptyMap key).2.1 = some .nullState ∧ (e.PutEmptyMap key).2.2.1 = e.raw) ∧
  (∀ key, (e.PutEmptyArray key).2.1 = some .nullState ∧ (e.PutEmptyArray key).2.2.1 = e.raw)

/-- The tree of the worked example `{"m1": {"arr": [10, 20, 30]}}`, wrapped
with a warn handler installed. -/
def exampleRoot : JSONElement :=
  ⟨.obj [("m1", .obj [("arr", .arr [.num 10, .num 20, .num 30])])], true, false, 0, false⟩

/-! ## Helper lemmas -/

theorem child_raw (me : JSONElement) (r : RawValue) : (me.child r).raw = r := rfl

theorem child_flags (me : JSONElement) (r : RawValue) :
    (me.child r).hasWarnHandler = me.hasWarnHandler ∧
      (me.child r).hasFatalHandler = false ∧
      (me.child r).Readonly = me.Readonly ∧
      (me.child r).Level = me.Level + 1 :=
  ⟨rfl, rfl, rfl, rfl⟩

theorem selectByKey_shape (me : JSONElement) (key : String) :
    ∃ r, (me.SelectByKey key).1 = me.child r := by
  unfold JSONElement.SelectByKey
  split
  · exact ⟨.null, rfl⟩
  · split
    · exact ⟨_, rfl⟩
    · exact ⟨.null, rfl⟩

theorem selectByPos_shape (me : JSONElement) (pos : Int) (e : JSONElement) (ds : List Diag)
    (h : me.SelectByPos pos = some (e, ds)) : ∃ r, e = me.child r := by
  unfold JSONElement.SelectByPos at h
  split at h
  · exact ⟨.null, by simpa using congrArg (fun o => (Option.map Prod.fst o)) h.symm⟩
  · split at h
    case _ xs =>
      split at h
      · exact ⟨.null, by simpa using congrArg (fun o => (Option.map Prod.fst o)) h.symm⟩
      · split at h
        · exact absurd h (by simp)
        · exact ⟨_, by simpa using congrArg (fun o => (Option.map Prod.fst o)) h.symm⟩
    case _ xs =>
      split at h
      · exact ⟨.null, by simpa using congrArg (fun o => (Option.map Prod.fst o)) h.symm⟩
      · split at h
        · exact absurd h (by simp)
        · exact ⟨_, by simpa using congrArg (fun o => (Option.map Prod.fst o)) h.symm⟩
    case _ =>
      exact ⟨.null, by simpa using congrArg (fun o => (Option.map Prod.fst o)) h.symm⟩

theorem select_flags (ks : List SelKey) (me : JSONElement) (k : SelKey) (e : JSONElement)
    (ds : List Diag) (h : me.Select k ks = some (e, ds)) :
    e.hasWarnHandler = me.hasWarnHandler ∧ e.hasFatalHandler = false ∧
      e.Readonly = me.Readonly := by
  induction ks generalizing me k e ds with
  | nil =>
    unfold JSONElement.Select at h
    split at h
    · cases h; exact ⟨rfl, rfl, rfl⟩
    · split at h
      · cases h; exact ⟨rfl, rfl, rfl⟩
      case _ i =>
        rcases hsp : me.SelectByPos i with _ | ⟨e2, ds2⟩ <;> rw [hsp] at h <;> simp at h
        obtain ⟨r, hr⟩ := selectByPos_shape me i e2 ds2 hsp
        rw [← h.1, hr]
        exact ⟨rfl, rfl, rfl⟩
      case _ s =>
        obtain ⟨e2, ds2, hsk⟩ : ∃ a b, me.SelectByKey s = (a, b) := ⟨_, _, rfl⟩
        rw [hsk] at h
        simp at h
        obtain ⟨r, hr⟩ := selectByKey_shape me s
        rw [hsk] at hr
        simp at hr
        rw [← h.1, hr]
        exact ⟨rfl, rfl, rfl⟩
  | cons k2 ks2 ih =>
    unfold JSONElement.Select at h
    split at h
    · cases h; exact ⟨rfl, rfl, rfl⟩
    · split at h
      · cases h; exact ⟨rfl, rfl, rfl⟩
      case _ i =>
        rcases hsp : me.SelectByPos i with _ | ⟨e2, ds2⟩ <;> rw [hsp] at h <;>
          dsimp only at h
        · cases h
        · obtain ⟨r, hr⟩ := selectByPos_shape me i e2 ds2 hsp
          rcases hrec : e2.Select k2 ks2 with _ | ⟨e3, ds3⟩ <;> rw [hrec] at h <;> simp at h
          have h3 := ih e2 k2 e3 ds3 hrec
          obtain ⟨he, -⟩ := h
          subst he
          rw [hr] at h3
          exact h3
      case _ s =>
        obtain ⟨e2, ds2, hsk⟩ : ∃ a b, me.SelectByKey s = (a, b) := ⟨_, _, rfl⟩
        rw [hsk] at h
        dsimp only at h
        obtain ⟨r, hr⟩ := selectByKey_shape me s
        rw [hsk] at hr
        simp at hr
        rcases hrec : e2.Select k2 ks2 with _ | ⟨e3, ds3⟩ <;> rw [hrec] at h <;> simp at h
        have h3 := ih e2 k2 e3 ds3 hrec
        obtain ⟨he, -⟩ := h
        subst he
        rw [hr] at h3
        exact h3

/-! ## Claim C2 -/

/-- C2 counterexample: on `{"m1": {"arr": [10, 20, 30]}}` with a warn
handler installed, `select("m1", "missing")` returns a Null-wrapping child
but delivers an empty diagnostic list — zero warnings, not exactly one as
the claim states.  `SelectByKey` only warns when the wrapped value is nil or
not a map; an absent key silently yields the map's zero value. -/
theorem C2_counterexample :
    exampleRoot.Select (.strKey "m1") [.strKey "missing"] =
        some (⟨.null, true, false, 2, false⟩, []) ∧
      (exampleRoot.Select (.strKey "m1") [.strKey "missing"]).map (fun p => p.2.length) ≠
        some 1 :=
  ⟨rfl, by decide⟩

/-- C2 (amended): `selectByKey` on an Object with an absent key returns a
Null-wrapping child element and emits no warning at all (warnings are
reserved for a Null wrapped value or a non-Object wrapped value); in
particular `select("m1", "missing")` on the example returns a child with
`isNull() == true` and zero warnings. -/
theorem C2_selectByKey_absent (me : JSONElement) (kvs : List (String × RawValue)) (key : String)
    (hraw : me.raw = .obj kvs) (habs : mapGet kvs key = none) :
    me.SelectByKey key = (me.child .null, []) ∧ (me.SelectByKey key).1.IsNil = true := by
  have h : me.SelectByKey key = (me.child .null, []) := by
    unfold JSONElement.SelectByKey
    rw [JSONElement.IsNil, hraw]
    simp [RawValue.isNil, habs]
  exact ⟨h, by rw [h]; rfl⟩

/-- C2 witness. -/
theorem C2_selectByKey_absent_witness :
    JSONElement.SelectByKey ⟨.obj [("a", .num 1)], true, false, 0, false⟩ "b" =
        (⟨.null, true, false, 1, false⟩, []) ∧
      (JSONElement.SelectByKey ⟨.obj [("a", .num 1)], true, false, 0, false⟩ "b").1.IsNil =
        true :=
  C2_selectByKey_absent ⟨.obj [("a", .num 1)], true, false, 0, false⟩ [("a", .num 1)] "b" rfl
    rfl

/-! ## Claim C3 -/

/-- C3: `selectByIndex` treats an index at or above the length as soft
(warn + Null child), but the claim also covers negative indices, where the
code panics: `pos >= containerLen` is the only bound check, after which
`(*refArr)[pos]` raises a Go runtime index-out-of-range panic.  The first
conjunct shows the soft path at index 3 on `[10, 20, 30]`; the second shows
the panic (modelled as `none`) at index `-1`. -/
theorem C3_selectByPos_out_of_range :
    JSONElement.SelectByPos ⟨.arr [.num 10, .num 20, .num 30], true, false, 0, false⟩ 3 =
        some (⟨.null, true, false, 1, false⟩, [.warnEvent "SelectByPos: Overflow"]) ∧
      JSONElement.SelectByPos ⟨.arr [.num 10, .num 20, .num 30], true, false, 0, false⟩ (-1) =
        none :=
  ⟨rfl, rfl⟩

/-! ## Claim C7 -/

/-- C7 counterexample: `count()` on a string scalar with a warn handler
installed emits one warning (`Count: Not Container`), while the claim states
the scalar case emits none. -/
theorem C7_counterexample :
    JSONElement.Count ⟨.str "abc", true, false, 0, false⟩ =
        (1, [.warnEvent "Count: Not Container"]) ∧
      (JSONElement.Count ⟨.str "abc", true, false, 0, false⟩).2.length ≠ 0 :=
  ⟨rfl, by decide⟩

/-- C7 (amended): `count()` returns the entry count for every Object and
every Array (each without warning), returns 1 for every scalar while
emitting a `Not Container` warning through the warn callback, and returns 0
with a warning for a Null-wrapping element. -/
theorem C7_count_behavior (me : JSONElement) :
    (∀ kvs, me.raw = .obj kvs → me.Count = ((kvs.length : Int), [])) ∧
      (∀ xs, me.raw = .arr xs → me.Count = ((xs.length : Int), [])) ∧
      (∀ xs, me.raw = .arrP xs → me.Count = ((xs.length : Int), [])) ∧
      (∀ b, me.raw = .boolean b → me.Count = (1, me.Warn "Count: Not Container")) ∧
      (∀ n, me.raw = .num n → me.Count = (1, me.Warn "Count: Not Container")) ∧
      (∀ s, me.raw = .str s → me.Count = (1, me.Warn "Count: Not Container")) ∧
      (me.raw = .null → me.Count = (0, me.Warn "Count: Null Object")) := by
  refine ⟨fun x h => ?_, fun x h => ?_, fun x h => ?_, fun x h => ?_, fun x h => ?_,
    fun x h => ?_, fun h => ?_⟩ <;>
    · unfold JSONElement.Count
      rw [JSONElement.IsNil, h]
      simp [RawValue.isNil]

/-- C7 witness: `{}` counts 0, `[1,2,3]` counts 3, a string scalar counts 1
with exactly one warning. -/
theorem C7_count_behavior_witness :
    JSONElement.Count ⟨.obj [], true, false, 0, false⟩ = (0, []) ∧
      JSONElement.Count ⟨.arr [.num 1, .num 2, .num 3], true, false, 0, false⟩ = (3, []) ∧
      JSONElement.Count ⟨.str "s", true, false, 0, false⟩ =
        (1, [.warnEvent "Count: Not Container"]) :=
  ⟨(C7_count_behavior ⟨.obj [], true, false, 0, false⟩).1 [] rfl,
    (C7_count_behavior ⟨.arr [.num 1, .num 2, .num 3], true, false, 0, false⟩).2.1
      [.num 1, .num 2, .num 3] rfl,
    (C7_count_behavior ⟨.str "s", true, false, 0, false⟩).2.2.2.2.2.1 "s" rfl⟩

/-! ## Claim C4 -/

theorem mutationsFailReadonly_of (e : JSONElement) (hro : e.Readonly = true)
    (hnn : e.IsNil = false) : mutationsFailReadonly e := by
  refine ⟨fun key v vs => ?_, fun v vs => ?_, fun key => ?_, fun pos => ?_, fun i => ?_,
    fun s => ?_, fun key => ?_, fun key => ?_⟩ <;>
    simp [JSONElement.Put, JSONElement.Append, JSONElement.DeleteByKey, JSONElement.DeleteByPos,
      JSONElement.Delete, JSONElement.PutEmptyMap, JSONElement.PutEmptyArray, hro, hnn]

theorem mutationsFailNull_of (e : JSONElement) (hn : e.IsNil = true) : mutationsFailNull e := by
  refine ⟨fun key v vs => ?_, fun v vs => ?_, fun key => ?_, fun pos => ?_, fun i => ?_,
    fun s => ?_, fun key => ?_, fun key => ?_⟩ <;>
    simp [JSONElement.Put, JSONElement.Append, JSONElement.DeleteByKey, JSONElement.DeleteByPos,
      JSONElement.Delete, JSONElement.PutEmptyMap, JSONElement.PutEmptyArray, hn]

/-- C4: on a read-only element that does not wrap Null, every mutation entry
point (`Put`, `Append`, `DeleteByKey`, `DeleteByPos`, `Delete` with an
int or string argument, `PutEmptyMap`, `PutEmptyArray`) fails with the
read-only error and leaves the underlying value unchanged; every element
reached from it by `Select` navigation carries the flag and fails the same
way; navigation itself still succeeds (`SelectByKey` on an Object resolves
the key exactly as without the flag); and a mutation on any Null-wrapping
element fails with the null-state error, which is checked before the
read-only flag. -/
theorem C4_readonly_enforcement (me : JSONElement) (hro : me.Readonly = true)
    (hnn : me.IsNil = false) :
    mutationsFailReadonly me ∧
      (∀ k ks e ds, me.Select k ks = some (e, ds) → e.IsNil = false →
        mutationsFailReadonly e) ∧
      (∀ kvs key, me.raw = .obj kvs →
        me.SelectByKey key = (me.child ((mapGet kvs key).getD .null), [])) ∧
      (∀ d : JSONElement, d.IsNil = true → mutationsFailNull d) := by
  refine ⟨mutationsFailReadonly_of me hro hnn, ?_, ?_, fun d hd => mutationsFailNull_of d hd⟩
  · intro k ks e ds h hen
    have hf := select_flags ks me k e ds h
    exact mutationsFailReadonly_of e (hf.2.2.trans hro) hen
  · intro kvs key hraw
    unfold JSONElement.SelectByKey
    rw [JSONElement.IsNil, hraw]
    simp [RawValue.isNil]

/-- C4 witness. -/
theorem C4_readonly_enforcement_witness :
    (JSONElement.Put ⟨.obj [("a", .num 1)], true, true, 0, true⟩ "k" (.rawVal (.num 2)) []).err =
        some .readonlyViolation ∧
      (JSONElement.Put ⟨.obj [("a", .num 1)], true, true, 0, true⟩ "k" (.rawVal (.num 2))
          []).raw = .obj [("a", .num 1)] :=
  (C4_readonly_enforcement ⟨.obj [("a", .num 1)], true, true, 0, true⟩ rfl rfl).1.1 "k"
    (.rawVal (.num 2)) []

/-! ## Claim C5 -/

/-- C5 counterexample: an element wrapping a value-held Array
(`[]interface{}`, the representation the byte parser produces) of length 0 —
neither Null nor read-only — rejects `append(1, 2, 3)` with the
not-editable-array type error, while the claim asserts `append` succeeds on
every non-Null, non-read-only Array-wrapping element. -/
theorem C5_counterexample :
    (JSONElement.Append ⟨.arr [], true, false, 0, false⟩ (.rawVal (.num 1))
        [.rawVal (.num 2), .rawVal (.num 3)]).err = some .notEditableArrayType :=
  rfl

/-- C5 (amended): on a non-Null, non-read-only element wrapping a
pointer-held (editable) Array of length n, `append(a, b, c)` succeeds and
the array becomes `xs ++ [a, b, c]` — length n+3 with positions n, n+1, n+2
equal to a, b, c in argument order as observed through `AsArray`; an
element wrapping a value-held Array instead fails with the
not-editable-array type error. -/
theorem C5_append_editable (me : JSONElement) (xs : List RawValue) (a b c : RawValue)
    (hraw : me.raw = .arrP xs) (hro : me.Readonly = false) :
    (me.Append (.rawVal a) [.rawVal b, .rawVal c]).err = none ∧
      (me.Append (.rawVal a) [.rawVal b, .rawVal c]).raw = .arrP (xs ++ [a, b, c]) ∧
      ({ me with raw := (me.Append (.rawVal a) [.rawVal b, .rawVal c]).raw }
        : JSONElement).AsArray.1.map JSONElement.raw = xs ++ [a, b, c] ∧
      ({ me with raw := (me.Append (.rawVal a) [.rawVal b, .rawVal c]).raw }
        : JSONElement).AsArray.1.length = xs.length + 3 ∧
      (∀ (me2 : JSONElement) (ys : List RawValue), me2.raw = .arr ys → me2.Readonly = false →
        (me2.Append (.rawVal a) [.rawVal b, .rawVal c]).err = some .notEditableArrayType) := by
  have happ : me.Append (.rawVal a) [.rawVal b, .rawVal c] =
      ⟨none, .arrP (xs ++ [a, b, c]), []⟩ := by
    simp [JSONElement.Append, JSONElement.IsNil, hraw, RawValue.isNil, hro, elm2Raw]
  refine ⟨by rw [happ], by rw [happ], ?_, ?_, ?_⟩
  · rw [happ]
    simp [JSONElement.AsArray, JSONElement.IsNil, RawValue.isNil, List.map_map,
      Function.comp_def, child_raw]
  · rw [happ]
    simp [JSONElement.AsArray, JSONElement.IsNil, RawValue.isNil]
  · intro me2 ys hraw2 hro2
    simp [JSONElement.Append, JSONElement.IsNil, hraw2, RawValue.isNil, hro2]

/-- C5 witness. -/
theorem C5_append_editable_witness :
    (JSONElement.Append ⟨.arrP [.num 7], true, false, 0, false⟩ (.rawVal (.num 1))
        [.rawVal (.str "x"), .rawVal (.boolean true)]).err = none ∧
      (JSONElement.Append ⟨.arrP [.num 7], true, false, 0, false⟩ (.rawVal (.num 1))
          [.rawVal (.str "x"), .rawVal (.boolean true)]).raw =
        .arrP [.num 7, .num 1, .str "x", .boolean true] :=
  ⟨(C5_append_editable ⟨.arrP [.num 7], true, false, 0, false⟩ [.num 7] (.num 1) (.str "x")
      (.boolean true) rfl rfl).1,
    (C5_append_editable ⟨.arrP [.num 7], true, false, 0, false⟩ [.num 7] (.num 1) (.str "x")
      (.boolean true) rfl rfl).2.1⟩

/-! ## Claim C9 -/

theorem eachArrayVisit_true (me : JSONElement) (xs : List RawValue) :
    ∀ i, (eachArrayVisit me (fun _ _ => (true, none)) i xs).2 = none ∧
      (eachArrayVisit me (fun _ _ => (true, none)) i xs).1.length = xs.length := by
  induction xs with
  | nil => intro i; exact ⟨rfl, rfl⟩
  | cons x rest ih =>
    intro i
    simp only [eachArrayVisit]
    exact ⟨(ih (i + 1)).1, by simp [(ih (i + 1)).2]⟩

theorem selectByPos_in_range_arr (me : JSONElement) (xs : List RawValue) (i : Int)
    (hraw : me.raw = .arr xs) (h0 : 0 ≤ i) (hl : i < (xs.length : Int)) :
    me.SelectByPos i = some (me.child (xs.getD i.toNat .null), []) := by
  unfold JSONElement.SelectByPos
  rw [JSONElement.IsNil, hraw]
  simp only [RawValue.isNil, Bool.false_eq_true, if_false]
  rw [if_neg (by omega), if_neg (by omega)]

theorem selectByPos_in_range_arrP (me : JSONElement) (xs : List RawValue) (i : Int)
    (hraw : me.raw = .arrP xs) (h0 : 0 ≤ i) (hl : i < (xs.length : Int)) :
    me.SelectByPos i = some (me.child (xs.getD i.toNat .null), []) := by
  unfold JSONElement.SelectByPos
  rw [JSONElement.IsNil, hraw]
  simp only [RawValue.isNil, Bool.false_eq_true, if_false]
  rw [if_neg (by omega), if_neg (by omega)]

/-- C9: arrays are stored in two representations and only the pointer one is
mutable.  On a value-held array (`[]interface{}`): in-range `SelectByPos`,
`Count`, `EachArray` and `AsArray` all succeed, while `Append` and
`DeleteByPos` always fail with the not-editable-array type error, leaving
the value unchanged.  On a pointer-held array (`*[]interface{}`): reads
succeed and `Append`/in-range `DeleteByPos` succeed too.  `NewAsArray`,
variadic `Put`, and `PutEmptyArray` all create pointer-held arrays. -/
theorem C9_two_array_representations (me : JSONElement) (xs : List RawValue)
    (hro : me.Readonly = false) :
    (me.raw = .arr xs →
      (∀ i : Int, 0 ≤ i → i < (xs.length : Int) →
        me.SelectByPos i = some (me.child (xs.getD i.toNat .null), [])) ∧
      me.Count = ((xs.length : Int), []) ∧
      me.AsArray = (xs.map me.child, []) ∧
      (me.EachArray fun _ _ => (true, none)).2 = none ∧
      (me.EachArray fun _ _ => (true, none)).1.length = xs.length ∧
      (∀ v vs, (me.Append v vs).err = some .notEditableArrayType ∧
        (me.Append v vs).raw = me.raw) ∧
      (∀ pos, (me.DeleteByPos pos).map (fun r => (r.err, r.raw)) =
        some (some .notEditableArrayType, me.raw))) ∧
    (me.raw = .arrP xs →
      (∀ i : Int, 0 ≤ i → i < (xs.length : Int) →
        me.SelectByPos i = some (me.child (xs.getD i.toNat .null), [])) ∧
      (∀ v vs, (me.Append v vs).err = none) ∧
      (∀ pos : Int, 0 ≤ pos → pos < (xs.length : Int) →
        (me.DeleteByPos pos).map (fun r => r.err) = some none)) ∧
    NewAsArray.raw = .arrP [] ∧
    (∀ key v w ws kvs, me.raw = .obj kvs →
      (me.Put key v (w :: ws)).raw =
        .obj (mapSet kvs key (.arrP ((v :: w :: ws).map elm2Raw)))) ∧
    (∀ key kvs, me.raw = .obj kvs →
      (me.PutEmptyArray key).2.2.1 = .obj (mapSet kvs key (.arrP []))) := by
  refine ⟨fun hraw => ⟨?_, ?_, ?_, ?_, ?_, ?_, ?_⟩, fun hraw => ⟨?_, ?_, ?_⟩, rfl, ?_, ?_⟩
  · exact fun i h0 hl => selectByPos_in_range_arr me xs i hraw h0 hl
  · exact ((C7_count_behavior me).2.1 xs hraw)
  · simp [JSONElement.AsArray, JSONElement.IsNil, hraw, RawValue.isNil]
  · simp [JSONElement.EachArray, JSONElement.IsNil, hraw, RawValue.isNil,
      (eachArrayVisit_true me xs 0).1]
  · simp [JSONElement.EachArray, JSONElement.IsNil, hraw, RawValue.isNil,
      (eachArrayVisit_true me xs 0).2]
  · intro v vs
    simp [JSONElement.Append, JSONElement.IsNil, hraw, RawValue.isNil, hro]
  · intro pos
    simp [JSONElement.DeleteByPos, JSONElement.IsNil, hraw, RawValue.isNil, hro]
  · exact fun i h0 hl => selectByPos_in_range_arrP me xs i hraw h0 hl
  · intro v vs
    simp [JSONElement.Append, JSONElement.IsNil, hraw, RawValue.isNil, hro]
  · intro pos h0 hl
    unfold JSONElement.DeleteByPos
    rw [JSONElement.IsNil, hraw]
    simp only [RawValue.isNil, Bool.false_eq_true, if_false, hro]
    rw [if_neg (by omega), if_neg (by omega)]
    rfl
  · intro key v w ws kvs hraw
    simp [JSONElement.Put, JSONElement.IsNil, hraw, RawValue.isNil, hro]
  · intro key kvs hraw
    simp [JSONElement.PutEmptyArray, JSONElement.Put, JSONElement.IsNil, hraw,
      RawValue.isNil, hro, elm2Raw]

/-- C9 witness. -/
theorem C9_two_array_representations_witness :
    ((JSONElement.Append ⟨.arr [.num 5], true, false, 0, false⟩ (.rawVal (.num 1)) []).err =
        some .notEditableArrayType ∧
      (JSONElement.Append ⟨.arr [.num 5], true, false, 0, false⟩ (.rawVal (.num 1)) []).raw =
        .arr [.num 5]) ∧
      (JSONElement.Append ⟨.arrP [.num 5], true, false, 0, false⟩ (.rawVal (.num 1)) []).err =
        none :=
  ⟨((C9_two_array_representations ⟨.arr [.num 5], true, false, 0, false⟩ [.num 5] rfl).1
      rfl).2.2.2.2.2.1 (.rawVal (.num 1)) [],
    ((C9_two_array_representations ⟨.arrP [.num 5], true, false, 0, false⟩ [.num 5] rfl).2.1
      rfl).2.1 (.rawVal (.num 1)) []⟩

/-! ## Claim C10 -/

theorem asArray_shape (me : JSONElement) (e : JSONElement) (h : e ∈ me.AsArray.1) :
    ∃ r, e = me.child r := by
  unfold JSONElement.AsArray at h
  split at h
  · simp at h
  · split at h <;> simp at h <;> obtain ⟨r, -, hr⟩ := h <;> exact ⟨r, hr.symm⟩

theorem fatal_all_warn (d : JSONElement) (hd : d.hasFatalHandler = false) (msg : String) :
    d.Fatal msg = (if d.hasWarnHandler then [.warnEvent msg] else []) ∧
      ∀ x ∈ d.Fatal msg, x.isFatal = false := by
  constructor
  · simp [JSONElement.Fatal, hd]
  · intro x hx
    simp [JSONElement.Fatal, hd] at hx
    rcases hx with ⟨-, hx⟩
    rw [hx]
    rfl

/-- C10: every child element produced by navigation or iteration inherits
the parent's warn handler, `Readonly` flag and `Level` incremented by one,
but never the parent's fatal handler; consequently a hard-condition failure
on a derived element routes its diagnostic through the warn callback (or
drops it when no warn callback is set) and never produces a fatal-handler
event — even when the parent has a fatal callback installed. -/
theorem C10_child_policy (me : JSONElement) :
    (∀ r, (me.child r).hasWarnHandler = me.hasWarnHandler ∧
      (me.child r).hasFatalHandler = false ∧ (me.child r).Readonly = me.Readonly ∧
      (me.child r).Level = me.Level + 1) ∧
    (∀ key, (me.SelectByKey key).1.hasWarnHandler = me.hasWarnHandler ∧
      (me.SelectByKey key).1.hasFatalHandler = false ∧
      (me.SelectByKey key).1.Readonly = me.Readonly ∧
      (me.SelectByKey key).1.Level = me.Level + 1) ∧
    (∀ pos e ds, me.SelectByPos pos = some (e, ds) →
      e.hasWarnHandler = me.hasWarnHandler ∧ e.hasFatalHandler = false ∧
      e.Readonly = me.Readonly ∧ e.Level = me.Level + 1) ∧
    (∀ k ks e ds, me.Select k ks = some (e, ds) →
      e.hasWarnHandler = me.hasWarnHandler ∧ e.hasFatalHandler = false ∧
      e.Readonly = me.Readonly) ∧
    (∀ e, e ∈ me.AsArray.1 → e.hasWarnHandler = me.hasWarnHandler ∧
      e.hasFatalHandler = false ∧ e.Readonly = me.Readonly ∧ e.Level = me.Level + 1) ∧
    (∀ d : JSONElement, d.hasFatalHandler = false →
      ∀ msg, d.Fatal msg = (if d.hasWarnHandler then [.warnEvent msg] else []) ∧
        ∀ x ∈ d.Fatal msg, x.isFatal = false) ∧
    (∀ key k v vs, ∀ x ∈ ((me.SelectByKey key).1.Put k v vs).diags, x.isFatal = false) := by
  refine ⟨fun r => ⟨rfl, rfl, rfl, rfl⟩, ?_, ?_, ?_, ?_,
    fun d hd msg => fatal_all_warn d hd msg, ?_⟩
  · intro key
    obtain ⟨r, hr⟩ := selectByKey_shape me key
    rw [hr]
    exact ⟨rfl, rfl, rfl, rfl⟩
  · intro pos e ds h
    obtain ⟨r, hr⟩ := selectByPos_shape me pos e ds h
    rw [hr]
    exact ⟨rfl, rfl, rfl, rfl⟩
  · exact fun k ks e ds h => select_flags ks me k e ds h
  · intro e he
    obtain ⟨r, hr⟩ := asArray_shape me e he
    rw [hr]
    exact ⟨rfl, rfl, rfl, rfl⟩
  · intro key k v vs x hx
    obtain ⟨r, hr⟩ := selectByKey_shape me key
    have hd : (me.SelectByKey key).1.hasFatalHandler = false := by rw [hr]; rfl
    revert hx
    unfold JSONElement.Put
    split
    · exact fun hx => (fatal_all_warn _ hd _).2 x hx
    · split
      · exact fun hx => (fatal_all_warn _ hd _).2 x hx
      · split
        · split <;> simp
        · exact fun hx => (fatal_all_warn _ hd _).2 x hx

/-- C10 witness. -/
theorem C10_child_policy_witness :
    ((JSONElement.child ⟨.obj [], true, true, 3, true⟩ (.num 1)).hasWarnHandler = true ∧
      (JSONElement.child ⟨.obj [], true, true, 3, true⟩ (.num 1)).hasFatalHandler = false ∧
      (JSONElement.child ⟨.obj [], true, true, 3, true⟩ (.num 1)).Readonly = true ∧
      (JSONElement.child ⟨.obj [], true, true, 3, true⟩ (.num 1)).Level = 3 + 1) ∧
      JSONElement.Fatal ⟨.null, true, false, 1, true⟩ "m" =
        (if (⟨.null, true, false, 1, true⟩ : JSONElement).hasWarnHandler then
          [.warnEvent "m"] else []) :=
  ⟨(C10_child_policy ⟨.obj [], true, true, 3, true⟩).1 (.num 1),
    ((C10_child_policy ⟨.obj [], true, true, 3, true⟩).2.2.2.2.2.1
      ⟨.null, true, false, 1, true⟩ rfl "m").1⟩

/-! ## Claim C6 -/

theorem char_eq_of_toNat {a b : Char} (h : a.toNat = b.toNat) : a = b :=
  Char.ext (UInt32.ext h)

theorem strLeB_total : ∀ as bs, strLeB as bs = true ∨ strLeB bs as = true := by
  intro as
  induction as with
  | nil => intro bs; left; rfl
  | cons a as ih =>
    intro bs
    cases bs with
    | nil => right; rfl
    | cons b bs =>
      simp only [strLeB]
      rcases Nat.lt_trichotomy a.toNat b.toNat with h | h | h
      · left; rw [if_pos h]
      · rw [if_neg (by omega), if_neg (by omega), if_neg (by omega), if_neg (by omega)]
        exact ih bs
      · right; rw [if_pos h]

theorem strLeB_trans :
    ∀ as bs cs, strLeB as bs = true → strLeB bs cs = true → strLeB as cs = true := by
  intro as
  induction as with
  | nil => intro bs cs h1 h2; rfl
  | cons a as ih =>
    intro bs cs h1 h2
    cases bs with
    | nil => simp [strLeB] at h1
    | cons b bs =>
      cases cs with
      | nil => simp [strLeB] at h2
      | cons c cs =>
        simp only [strLeB] at h1 h2 ⊢
        split_ifs at h1 h2 ⊢ <;>
          first
            | rfl
            | omega
            | exact ih bs cs h1 h2

theorem strLeB_antisymm : ∀ as bs, strLeB as bs = true → strLeB bs as = true → as = bs := by
  intro as
  induction as with
  | nil =>
    intro bs h1 h2
    cases bs with
    | nil => rfl
    | cons b bs => simp [strLeB] at h2
  | cons a as ih =>
    intro bs h1 h2
    cases bs with
    | nil => simp [strLeB] at h1
    | cons b bs =>
      simp only [strLeB] at h1 h2
      split_ifs at h1 h2 <;>
        first
          | omega
          | simp_all
      case _ hab hba =>
        have hc : a = b := char_eq_of_toNat (by omega)
        exact ⟨hc, ih bs h1 h2⟩

theorem eachMapVisit_true (me : JSONElement) (kvs : List (String × RawValue))
    (cb : String → JSONElement → Bool × Option String) (hcb : ∀ k e, cb k e = (true, none)) :
    ∀ ks, eachMapVisit me kvs cb ks = (ks, none) := by
  intro ks
  induction ks with
  | nil => rfl
  | cons k rest ih => simp [eachMapVisit, hcb, ih]

/-- C6: on an element wrapping an Object, `EachMap` visits the entries in
ascending lexicographic key order — the sorted key list — regardless of the
mapping's storage order: two elements wrapping objects with permuted entry
lists produce identical visiting orders. -/
theorem C6_eachMap_sorted (me : JSONElement) (kvs : List (String × RawValue))
    (hraw : me.raw = .obj kvs) (cb : String → JSONElement → Bool × Option String)
    (hcb : ∀ k e, cb k e = (true, none)) :
    me.EachMap cb = (sortStrings (kvs.map Prod.fst), none) ∧
      List.Sorted strLe (sortStrings (kvs.map Prod.fst)) ∧
      List.Perm (sortStrings (kvs.map Prod.fst)) (kvs.map Prod.fst) ∧
      (∀ (me2 : JSONElement) (kvs2 : List (String × RawValue)), me2.raw = .obj kvs2 →
        List.Perm (kvs2.map Prod.fst) (kvs.map Prod.fst) →
        me2.EachMap cb = me.EachMap cb) := by
  have hmain : ∀ (m : JSONElement) (l : List (String × RawValue)), m.raw = .obj l →
      m.EachMap cb = (sortStrings (l.map Prod.fst), none) := by
    intro m l hl
    unfold JSONElement.EachMap
    rw [JSONElement.IsNil, hl]
    simp [RawValue.isNil, eachMapVisit_true m l cb hcb]
  haveI : IsTotal String strLe := ⟨fun s t => strLeB_total s.data t.data⟩
  haveI : IsTrans String strLe := ⟨fun s t u => strLeB_trans s.data t.data u.data⟩
  haveI : IsAntisymm String strLe := ⟨fun s t h1 h2 => by
    have hd := strLeB_antisymm s.data t.data h1 h2
    cases s
    cases t
    exact congrArg String.mk hd⟩
  refine ⟨hmain me kvs hraw, List.sorted_insertionSort _ _, List.perm_insertionSort _ _, ?_⟩
  intro me2 kvs2 hraw2 hperm
  rw [hmain me2 kvs2 hraw2, hmain me kvs hraw]
  have heq : sortStrings (kvs2.map Prod.fst) = sortStrings (kvs.map Prod.fst) :=
    List.eq_of_perm_of_sorted
      ((List.perm_insertionSort _ _).trans (hperm.trans (List.perm_insertionSort _ _).symm))
      (List.sorted_insertionSort _ _) (List.sorted_insertionSort _ _)
  rw [heq]

/-- C6 witness: for the object `{"b": 1, "a": 2}` the visiting order is
`["a", "b"]`. -/
theorem C6_eachMap_sorted_witness :
    JSONElement.EachMap ⟨.obj [("b", .num 1), ("a", .num 2)], false, false, 0, false⟩
      (fun _ _ => (true, none)) = (["a", "b"], none) := by
  have h := (C6_eachMap_sorted ⟨.obj [("b", .num 1), ("a", .num 2)], false, false, 0, false⟩
    [("b", .num 1), ("a", .num 2)] rfl (fun _ _ => (true, none)) (fun _ _ => rfl)).1
  rw [h]
  rfl

/-! ## Claim C8 -/

theorem trailItems_eq_seq (x : RawValue) (xs : List RawValue) :
    trailItems (x :: xs) = dumpSeq (x :: xs) ++ [',', ' '] := by
  induction xs generalizing x with
  | nil => simp [trailItems, dumpSeq]
  | cons y rest ih => simp [trailItems, dumpSeq, ← ih y]

theorem trailMems_eq_seq (m : String × RawValue) (ms : List (String × RawValue)) :
    trailMems (m :: ms) = dumpMems (m :: ms) ++ [',', ' '] := by
  induction ms generalizing m with
  | nil => simp [trailMems, dumpMems]
  | cons m2 rest ih =>
    obtain ⟨k, v⟩ := m
    obtain ⟨k2, v2⟩ := m2
    simp [trailMems, dumpMems, ← ih (k2, v2)]

theorem take_drop_tail_two (l : List Char) (a b : Char) :
    (l ++ [a, b]).take ((l ++ [a, b]).length - 2) = l := by
  have h : (l ++ [a, b]).length - 2 = l.length := by simp
  rw [h, List.take_left]

mutual

theorem Dump_eq : (v : RawValue) → (buf : List Char) → Dump v buf = buf ++ dumpChars v
  | .null, buf => by simp [Dump, dumpChars]
  | .boolean b, buf => by simp [Dump, dumpChars]
  | .num n, buf => by simp [Dump, dumpChars]
  | .str s, buf => by simp [Dump, dumpChars]
  | .arr [], buf => by simp [Dump, dumpChars, dumpItems, dumpSeq]
  | .arr (x :: xs), buf => by
    show
      (let buf1 := buf ++ ['['];
        let buf2 := dumpItems (x :: xs) buf1;
        let buf3 := if (x :: xs).length > 0 then buf2.take (buf2.length - 2) else buf2;
        buf3 ++ [']']) = buf ++ dumpChars (.arr (x :: xs))
    simp only [dumpItems_eq (x :: xs) (buf ++ ['[']), trailItems_eq_seq x xs,
      List.length_cons, Nat.zero_lt_succ, if_true, gt_iff_lt]
    rw [← List.append_assoc, take_drop_tail_two]
    simp [dumpChars]
  | .arrP [], buf => by simp [Dump, dumpChars, dumpItems, dumpSeq]
  | .arrP (x :: xs), buf => by
    show
      (let buf1 := buf ++ ['['];
        let buf2 := dumpItems (x :: xs) buf1;
        let buf3 := if (x :: xs).length > 0 then buf2.take (buf2.length - 2) else buf2;
        buf3 ++ [']']) = buf ++ dumpChars (.arrP (x :: xs))
    simp only [dumpItems_eq (x :: xs) (buf ++ ['[']), trailItems_eq_seq x xs,
      List.length_cons, Nat.zero_lt_succ, if_true, gt_iff_lt]
    rw [← List.append_assoc, take_drop_tail_two]
    simp [dumpChars]
  | .obj [], buf => by simp [Dump, dumpChars, dumpMembers, dumpMems]
  | .obj (m :: ms), buf => by
    show
      (let buf1 := buf ++ [lbrace];
        let buf2 := dumpMembers (m :: ms) buf1;
        let buf3 := if (m :: ms).length > 0 then buf2.take (buf2.length - 2) else buf2;
        buf3 ++ [rbrace]) = buf ++ dumpChars (.obj (m :: ms))
    simp only [dumpMembers_eq (m :: ms) (buf ++ [lbrace]), trailMems_eq_seq m ms,
      List.length_cons, Nat.zero_lt_succ, if_true, gt_iff_lt]
    rw [← List.append_assoc, take_drop_tail_two]
    simp [dumpChars]

theorem dumpItems_eq :
    (xs : List RawValue) → (buf : List Char) → dumpItems xs buf = buf ++ trailItems xs
  | [], buf => by simp [dumpItems, trailItems]
  | x :: rest, buf => by
    show dumpItems rest (Dump x buf ++ [',', ' ']) = buf ++ trailItems (x :: rest)
    rw [dumpItems_eq rest (Dump x buf ++ [',', ' ']), Dump_eq x buf]
    simp [trailItems]

theorem dumpMembers_eq :
    (ms : List (String × RawValue)) → (buf : List Char) →
      dumpMembers ms buf = buf ++ trailMems ms
  | [], buf => by simp [dumpMembers, trailMems]
  | (k, v) :: rest, buf => by
    show
      dumpMembers rest
        (Dump v (buf ++ '"' :: (escChars k.data ++ ['"', ':', ' '])) ++ [',', ' ']) =
      buf ++ trailMems ((k, v) :: rest)
    rw [dumpMembers_eq rest _, Dump_eq v _]
    simp [trailMems]

end

/-- C8: the serializer escapes object keys by the same minimal rule as
string values.  The serialized form of an object is braces around its
entries, each entry being the quoted `escChars`-escaped key, `": "`, and the
entry's value, with `", "` between entries; the serialized form of a string
value is the quoted `escChars`-escaped text; `escChars` prefixes exactly the
characters `"` and `\` with one backslash and leaves every other character
untouched; and the element's to-text conversion is the same serializer, so
the rule holds at both entry points. -/
theorem C8_key_escaping (me : JSONElement) (hnn : me.raw.isNil = false) :
    (∀ kvs, Dump (.obj kvs) [] = lbrace :: (dumpMems kvs ++ [rbrace])) ∧
      (∀ (k : String) (v : RawValue) rest,
        dumpMems ((k, v) :: rest) =
          ('"' :: (escChars k.data ++ ['"', ':', ' ']) ++ dumpChars v) ++
            (if rest.isEmpty then [] else ',' :: ' ' :: dumpMems rest)) ∧
      (∀ s : String, Dump (.str s) [] = '"' :: (escChars s.data ++ ['"'])) ∧
      (∀ s : String, escChars s.data =
        s.data.flatMap fun c => if c = '"' ∨ c = '\\' then ['\\', c] else [c]) ∧
      me.toGoString = dumpString me.raw := by
  refine ⟨?_, ?_, ?_, ?_, ?_⟩
  · intro kvs
    rw [Dump_eq (.obj kvs) []]
    simp [dumpChars]
  · intro k v rest
    cases rest with
    | nil => simp [dumpMems]
    | cons m2 ms => simp [dumpMems]
  · intro s
    rw [Dump_eq (.str s) []]
    simp [dumpChars]
  · intro s
    induction s.data with
    | nil => rfl
    | cons c rest ih => simp [escChars, ih]
  · simp [JSONElement.toGoString, hnn]

/-- C8 witness. -/
theorem C8_key_escaping_witness :
    JSONElement.toGoString ⟨.str "x", false, false, 0, false⟩ = dumpString (.str "x") :=
  (C8_key_escaping ⟨.str "x", false, false, 0, false⟩ rfl).2.2.2.2

/-! ## Claim C1 -/

theorem charVal_digitCh {d : Nat} (h : d < 10) : charVal (digitCh d) = d := by
  interval_cases d <;> rfl

theorem isDigitCh_digitCh {d : Nat} (h : d < 10) : isDigitCh (digitCh d) = true := by
  interval_cases d <;> rfl

theorem natCharsGo_spec : ∀ (f n : Nat) (acc : List Char), n ≤ f →
    natCharsGo (f + 1) n acc = natDigits n ++ acc := by
  intro f
  induction f with
  | zero =>
    intro n acc hn
    have h0 : n = 0 := by omega
    subst h0
    rw [natDigits]
    rfl
  | succ f ih =>
    intro n acc hn
    rw [natDigits]
    by_cases h : n < 10
    · rw [dif_pos h]
      simp [natCharsGo, h]
    · rw [dif_neg h]
      have hrec := ih (n / 10) (digitCh (n % 10) :: acc) (by omega)
      conv_lhs => rw [natCharsGo]
      rw [if_neg h, hrec]
      simp

theorem natChars_eq_natDigits (n : Nat) : natChars n = natDigits n := by
  have h := natCharsGo_spec n n [] (Nat.le_refl n)
  simpa [natChars] using h

theorem natDigits_digits (n : Nat) : ∀ c ∈ natDigits n, isDigitCh c = true := by
  induction n using Nat.strong_induction_on with
  | _ n ih =>
    rw [natDigits]
    split
    · intro c hc
      simp at hc
      subst hc
      exact isDigitCh_digitCh (by omega)
    · intro c hc
      simp at hc
      rcases hc with hc | hc
      · exact ih (n / 10) (Nat.div_lt_self (by omega) (by omega)) c hc
      · subst hc
        exact isDigitCh_digitCh (by omega)

theorem natDigits_ne_nil (n : Nat) : natDigits n ≠ [] := by
  rw [natDigits]
  split <;> simp

theorem digitsToNat_append (ds : List Char) (c : Char) :
    digitsToNat (ds ++ [c]) = 10 * digitsToNat ds + charVal c := by
  simp [digitsToNat, List.foldl_append]

theorem digitsToNat_natDigits (n : Nat) : digitsToNat (natDigits n) = n := by
  induction n using Nat.strong_induction_on with
  | _ n ih =>
    rw [natDigits]
    split
    · rename_i h
      simp [digitsToNat, charVal_digitCh h]
    · rename_i h
      rw [digitsToNat_append, ih (n / 10) (Nat.div_lt_self (by omega) (by omega)),
        charVal_digitCh (by omega : n % 10 < 10)]
      omega

theorem takeDigits_append (ds rest : List Char) (hds : ∀ c ∈ ds, isDigitCh c = true)
    (hrest : ∀ c, rest.head? = some c → isDigitCh c = false) :
    takeDigits (ds ++ rest) = (ds, rest) := by
  induction ds with
  | nil =>
    cases rest with
    | nil => rfl
    | cons c t =>
      have hc := hrest c rfl
      simp [takeDigits, hc]
  | cons d ds ih =>
    have hd := hds d (by simp)
    have hih := ih (fun c hc => hds c (by simp [hc]))
    simp [takeDigits, hd, hih]

theorem not_ws_of_digit (c : Char) (h : isDigitCh c = true) : isWs c = false := by
  simp only [isWs]
  have hn : ¬(c = ' ' ∨ c = '\t' ∨ c = '\n' ∨ c = '\r') := by
    rintro (rfl | rfl | rfl | rfl) <;> exact absurd h (by decide)
  exact decide_eq_false hn

theorem digit_ne_delims (c : Char) (h : isDigitCh c = true) :
    c ≠ '[' ∧ c ≠ lbrace ∧ c ≠ '"' ∧ c ≠ 't' ∧ c ≠ 'f' ∧ c ≠ 'n' ∧ c ≠ '-' := by
  refine ⟨?_, ?_, ?_, ?_, ?_, ?_, ?_⟩ <;> rintro rfl <;> revert h <;> decide

theorem skipWs_non_ws (c : Char) (t : List Char) (h : isWs c = false) :
    skipWs (c :: t) = c :: t := by
  simp [skipWs, h]

theorem parseStrChars_esc (cs : List Char) (rest : List Char)
    (h : ∀ c ∈ cs, 32 ≤ c.toNat) :
    parseStrChars (escChars cs ++ ('"' :: rest)) = some (cs, rest) := by
  induction cs with
  | nil =>
    simp only [escChars, List.nil_append]
    unfold parseStrChars
    simp
  | cons c t ih =>
    have hih := ih (fun x hx => h x (by simp [hx]))
    by_cases hc : c = '"' ∨ c = '\\'
    · rcases hc with rfl | rfl <;> simp [escChars, parseStrChars, hih]
    · push_neg at hc
      have h32 := h c (by simp)
      simp only [escChars, if_neg (by tauto : ¬(c = '"' ∨ c = '\\')), List.cons_append,
        List.nil_append]
      unfold parseStrChars
      simp [hc.1, hc.2, hih, show ¬(c.toNat < 32) by omega]

theorem parse_num (n : Int) (f : Nat) (rest : List Char)
    (hrest : ∀ c, rest.head? = some c → isDigitCh c = false) :
    parseVal (f + 1) (intChars n ++ rest) = some (.num n, rest) := by
  by_cases hn : n < 0
  · obtain ⟨d, ds, hds⟩ := List.exists_cons_of_ne_nil (natDigits_ne_nil n.natAbs)
    have htake : takeDigits (natDigits n.natAbs ++ rest) = (natDigits n.natAbs, rest) :=
      takeDigits_append _ _ (natDigits_digits n.natAbs) hrest
    have hval : digitsToNat (natDigits n.natAbs) = n.natAbs := digitsToNat_natDigits _
    simp only [intChars, if_pos hn, natChars_eq_natDigits, List.cons_append]
    simp only [parseVal]
    rw [skipWs_non_ws '-' _ (by decide)]
    simp only [if_neg (by decide : ¬('-' : Char) = '['),
      if_neg (show ¬('-' : Char) = lbrace by decide),
      if_neg (by decide : ¬('-' : Char) = '"'), if_neg (by decide : ¬('-' : Char) = 't'),
      if_neg (by decide : ¬('-' : Char) = 'f'), if_neg (by decide : ¬('-' : Char) = 'n'),
      eq_self_iff_true, if_true, htake, hds]
    have hval2 : digitsToNat (d :: ds) = n.natAbs := by rw [← hds]; exact hval
    have htake2 : takeDigits (d :: (ds ++ rest)) = (d :: ds, rest) := by
      rw [hds] at htake
      simpa using htake
    simp [htake2, hval2]
    rw [abs_of_neg hn, neg_neg]
  · push_neg at hn
    simp only [intChars, if_neg (by omega : ¬n < 0), natChars_eq_natDigits]
    obtain ⟨d, ds, hds⟩ := List.exists_cons_of_ne_nil (natDigits_ne_nil n.toNat)
    have hd : isDigitCh d = true := natDigits_digits n.toNat d (by rw [hds]; simp)
    have hne := digit_ne_delims d hd
    have htake : takeDigits (d :: (ds ++ rest)) = (d :: ds, rest) := by
      have h1 : takeDigits ((d :: ds) ++ rest) = (d :: ds, rest) := by
        apply takeDigits_append
        · intro c hc
          apply natDigits_digits n.toNat
          rw [hds]
          exact hc
        · exact hrest
      simpa using h1
    rw [hds]
    simp only [parseVal, List.cons_append]
    rw [skipWs_non_ws d _ (not_ws_of_digit d hd)]
    simp only [if_neg hne.1, if_neg hne.2.1, if_neg hne.2.2.1, if_neg hne.2.2.2.1,
      if_neg hne.2.2.2.2.1, if_neg hne.2.2.2.2.2.1, if_neg hne.2.2.2.2.2.2, hd, if_true]
    rw [htake]
    have hval : digitsToNat (d :: ds) = n.toNat := by
      rw [← hds, digitsToNat_natDigits]
    simp [hval, show ((n.toNat : Int)) = n by omega]

theorem dumpSeq_cons (x : RawValue) (xs : List RawValue) :
    dumpSeq (x :: xs) = dumpChars x ++ sepSeq xs := by
  induction xs generalizing x with
  | nil => simp [dumpSeq, sepSeq]
  | cons y t ih => simp [dumpSeq, sepSeq, ← ih y]

theorem dumpMems_cons (k : String) (v : RawValue) (ms : List (String × RawValue)) :
    dumpMems ((k, v) :: ms) =
      ('"' :: (escChars k.data ++ ['"', ':', ' ']) ++ dumpChars v) ++ sepMems ms := by
  induction ms generalizing k v with
  | nil => simp [dumpMems, sepMems]
  | cons m t ih =>
    obtain ⟨k2, v2⟩ := m
    simp [dumpMems, sepMems, ih k2 v2]

theorem strOk_ge32 (s : String) (h : strOk s = true) : ∀ c ∈ s.data, 32 ≤ c.toNat := by
  intro c hc
  simp only [strOk, List.all_eq_true] at h
  have := h c hc
  simp at this
  exact this.1

theorem digit_ne_closers (c : Char) (h : isDigitCh c = true) :
    c ≠ ']' ∧ c ≠ rbrace ∧ c ≠ ',' := by
  refine ⟨?_, ?_, ?_⟩ <;> rintro rfl <;> revert h <;> decide

theorem dumpChars_head (v : RawValue) :
    ∃ c t, dumpChars v = c :: t ∧ isWs c = false ∧ c ≠ ']' ∧ c ≠ rbrace ∧ c ≠ ',' := by
  cases v with
  | null =>
    refine ⟨'<', ['n', 'i', 'l', '>'], ?_, by decide, by decide, by decide, by decide⟩
    simp only [dumpChars]
    try decide
  | boolean b =>
    cases b with
    | true =>
      refine ⟨'t', ['r', 'u', 'e'], ?_, by decide, by decide, by decide, by decide⟩
      simp only [dumpChars]
      decide
    | false =>
      refine ⟨'f', ['a', 'l', 's', 'e'], ?_, by decide, by decide, by decide, by decide⟩
      simp only [dumpChars]
      decide
  | num n =>
    by_cases hn : n < 0
    · refine ⟨'-', natChars n.natAbs, ?_, by decide, by decide, by decide, by decide⟩
      simp [dumpChars, intChars, hn]
    · obtain ⟨d, ds, hds⟩ := List.exists_cons_of_ne_nil (natDigits_ne_nil n.toNat)
      have hd : isDigitCh d = true := natDigits_digits n.toNat d (by rw [hds]; simp)
      have hcl := digit_ne_closers d hd
      refine ⟨d, ds, ?_, not_ws_of_digit d hd, hcl.1, hcl.2.1, hcl.2.2⟩
      simp [dumpChars, intChars, hn, natChars_eq_natDigits, hds]
  | str s =>
    exact ⟨'"', escChars s.data ++ ['"'], by simp [dumpChars], by decide, by decide,
      by decide, by decide⟩
  | arr xs =>
    exact ⟨'[', dumpSeq xs ++ [']'], by simp [dumpChars], by decide, by decide,
      by decide, by decide⟩
  | arrP xs =>
    exact ⟨'[', dumpSeq xs ++ [']'], by simp [dumpChars], by decide, by decide,
      by decide, by decide⟩
  | obj kvs =>
    exact ⟨lbrace, dumpMems kvs ++ [rbrace], by simp [dumpChars], by decide, by decide,
      by decide, by decide⟩

theorem sepSeq_closer_head (xs : List RawValue) (rest : List Char) :
    ∀ c, (sepSeq xs ++ (']' :: rest)).head? = some c → isDigitCh c = false := by
  cases xs with
  | nil =>
    intro c hc
    simp [sepSeq] at hc
    subst hc
    decide
  | cons y t =>
    intro c hc
    simp [sepSeq] at hc
    subst hc
    decide

theorem sepMems_closer_head (ms : List (String × RawValue)) (rest : List Char) :
    ∀ c, (sepMems ms ++ (rbrace :: rest)).head? = some c → isDigitCh c = false := by
  cases ms with
  | nil =>
    intro c hc
    simp [sepMems] at hc
    subst hc
    decide
  | cons m t =>
    obtain ⟨k, v⟩ := m
    intro c hc
    simp [sepMems] at hc
    subst hc
    decide

theorem parseVal_space (f : Nat) (cs : List Char) :
    parseVal f (' ' :: cs) = parseVal f cs := by
  cases f with
  | zero => rfl
  | succ f2 => rfl

mutual

theorem needVal_le : (v : RawValue) → needVal v ≤ (dumpChars v).length + 1
  | .null => by simp [needVal]
  | .boolean b => by simp [needVal]
  | .num n => by simp [needVal]
  | .str s => by simp [needVal]
  | .arr [] => by simp [needVal]
  | .arr (x :: xs) => by
    have h1 := needVal_le x
    have h2 := needTail_le xs
    simp only [needVal, dumpChars, dumpSeq_cons x xs, List.length_cons, List.length_append]
    omega
  | .arrP [] => by simp [needVal]
  | .arrP (x :: xs) => by
    have h1 := needVal_le x
    have h2 := needTail_le xs
    simp only [needVal, dumpChars, dumpSeq_cons x xs, List.length_cons, List.length_append]
    omega
  | .obj [] => by simp [needVal]
  | .obj ((k, v) :: ms) => by
    have h1 := needVal_le v
    have h2 := needObjTail_le ms
    simp only [needVal, dumpChars, dumpMems_cons k v ms, List.length_cons,
      List.length_append]
    omega

theorem needTail_le : (xs : List RawValue) → needTail xs ≤ (sepSeq xs).length + 1
  | [] => by simp [needTail, sepSeq]
  | y :: t => by
    have h1 := needVal_le y
    have h2 := needTail_le t
    simp only [needTail, sepSeq, List.length_cons, List.length_append]
    omega

theorem needObjTail_le :
    (ms : List (String × RawValue)) → needObjTail ms ≤ (sepMems ms).length + 1
  | [] => by simp [needObjTail, sepMems]
  | (k, v) :: t => by
    have h1 := needVal_le v
    have h2 := needObjTail_le t
    simp only [needObjTail, sepMems, List.length_cons, List.length_append]
    omega

end

theorem parseMember_space (f : Nat) (cs : List Char) :
    parseMember f (' ' :: cs) = parseMember f cs := by
  cases f with
  | zero => rfl
  | succ f2 => rfl

mutual

theorem parse_dump_val : (v : RawValue) → ∀ (f : Nat) (rest : List Char),
    roundtripSafe v = true → needVal v ≤ f →
    (∀ c, rest.head? = some c → isDigitCh c = false) →
    parseVal f (dumpChars v ++ rest) = some (deref v, rest)
  | .null => by
    intro f rest hsafe hf hrest
    exact absurd hsafe (by simp [roundtripSafe])
  | .boolean true => by
    intro f rest hsafe hf hrest
    cases f with
    | zero => simp [needVal] at hf
    | succ f2 =>
      have hd : dumpChars (.boolean true) = ['t', 'r', 'u', 'e'] := by
        simp only [dumpChars]
        rfl
      rw [hd, show deref (.boolean true) = .boolean true by simp [deref]]
      rfl
  | .boolean false => by
    intro f rest hsafe hf hrest
    cases f with
    | zero => simp [needVal] at hf
    | succ f2 =>
      have hd : dumpChars (.boolean false) = ['f', 'a', 'l', 's', 'e'] := by
        simp only [dumpChars]
        rfl
      rw [hd, show deref (.boolean false) = .boolean false by simp [deref]]
      rfl
  | .num n => by
    intro f rest hsafe hf hrest
    cases f with
    | zero => simp [needVal] at hf
    | succ f2 =>
      have hd : dumpChars (.num n) = intChars n := by simp [dumpChars]
      rw [hd, show deref (.num n) = .num n by simp [deref]]
      exact parse_num n f2 rest hrest
  | .str s => by
    intro f rest hsafe hf hrest
    simp only [roundtripSafe] at hsafe
    cases f with
    | zero => simp [needVal] at hf
    | succ f2 =>
      have hin : dumpChars (.str s) ++ rest = '"' :: (escChars s.data ++ ('"' :: rest)) := by
        simp [dumpChars]
      rw [hin, show deref (.str s) = .str s by simp [deref]]
      simp only [parseVal]
      rw [show skipWs ('"' :: (escChars s.data ++ ('"' :: rest))) =
        '"' :: (escChars s.data ++ ('"' :: rest)) from rfl]
      dsimp only
      rw [if_neg (by decide : ¬('"' : Char) = '['),
        if_neg (show ¬('"' : Char) = lbrace by decide), if_pos rfl,
        parseStrChars_esc s.data rest (strOk_ge32 s hsafe)]
  | .arr [] => by
    intro f rest hsafe hf hrest
    cases f with
    | zero => simp [needVal] at hf
    | succ f2 =>
      have hin : dumpChars (.arr []) ++ rest = '[' :: (']' :: rest) := by
        simp [dumpChars, dumpSeq]
      rw [hin, show deref (.arr []) = .arr [] by simp [deref, derefList]]
      rfl
  | .arr (x :: xs) => by
    intro f rest hsafe hf hrest
    simp only [roundtripSafe, roundtripSafeList, Bool.and_eq_true] at hsafe
    simp only [needVal] at hf
    cases f with
    | zero => omega
    | succ f2 =>
      obtain ⟨c, t, hhead, hws, hbr, -, -⟩ := dumpChars_head x
      have hx : parseVal f2 (dumpChars x ++ (sepSeq xs ++ (']' :: rest))) =
          some (deref x, sepSeq xs ++ (']' :: rest)) :=
        parse_dump_val x f2 _ hsafe.1 (by omega) (sepSeq_closer_head xs rest)
      have ht : parseArrTail f2 (sepSeq xs ++ (']' :: rest)) = some (derefList xs, rest) :=
        parse_dump_arrTail xs f2 rest hsafe.2 (by omega) hrest
      have hin : dumpChars (.arr (x :: xs)) ++ rest =
          '[' :: (c :: (t ++ (sepSeq xs ++ (']' :: rest)))) := by
        simp [dumpChars, dumpSeq_cons x xs, hhead]
      rw [hhead] at hx
      simp only [List.cons_append] at hx
      rw [hin,
        show deref (.arr (x :: xs)) = .arr (deref x :: derefList xs) by
          simp [deref, derefList]]
      simp only [parseVal]
      rw [show skipWs ('[' :: (c :: (t ++ (sepSeq xs ++ (']' :: rest))))) =
        '[' :: (c :: (t ++ (sepSeq xs ++ (']' :: rest)))) from rfl]
      dsimp only
      rw [if_pos rfl, skipWs_non_ws c _ hws]
      dsimp only
      rw [if_neg hbr, hx]
      dsimp only
      rw [ht]
  | .arrP [] => by
    intro f rest hsafe hf hrest
    cases f with
    | zero => simp [needVal] at hf
    | succ f2 =>
      have hin : dumpChars (.arrP []) ++ rest = '[' :: (']' :: rest) := by
        simp [dumpChars, dumpSeq]
      rw [hin, show deref (.arrP []) = .arr [] by simp [deref, derefList]]
      rfl
  | .arrP (x :: xs) => by
    intro f rest hsafe hf hrest
    simp only [roundtripSafe, roundtripSafeList, Bool.and_eq_true] at hsafe
    simp only [needVal] at hf
    cases f with
    | zero => omega
    | succ f2 =>
      obtain ⟨c, t, hhead, hws, hbr, -, -⟩ := dumpChars_head x
      have hx : parseVal f2 (dumpChars x ++ (sepSeq xs ++ (']' :: rest))) =
          some (deref x, sepSeq xs ++ (']' :: rest)) :=
        parse_dump_val x f2 _ hsafe.1 (by omega) (sepSeq_closer_head xs rest)
      have ht : parseArrTail f2 (sepSeq xs ++ (']' :: rest)) = some (derefList xs, rest) :=
        parse_dump_arrTail xs f2 rest hsafe.2 (by omega) hrest
      have hin : dumpChars (.arrP (x :: xs)) ++ rest =
          '[' :: (c :: (t ++ (sepSeq xs ++ (']' :: rest)))) := by
        simp [dumpChars, dumpSeq_cons x xs, hhead]
      rw [hhead] at hx
      simp only [List.cons_append] at hx
      rw [hin,
        show deref (.arrP (x :: xs)) = .arr (deref x :: derefList xs) by
          simp [deref, derefList]]
      simp only [parseVal]
      rw [show skipWs ('[' :: (c :: (t ++ (sepSeq xs ++ (']' :: rest))))) =
        '[' :: (c :: (t ++ (sepSeq xs ++ (']' :: rest)))) from rfl]
      dsimp only
      rw [if_pos rfl, skipWs_non_ws c _ hws]
      dsimp only
      rw [if_neg hbr, hx]
      dsimp only
      rw [ht]
  | .obj [] => by
    intro f rest hsafe hf hrest
    cases f with
    | zero => simp [needVal] at hf
    | succ f2 =>
      have hin : dumpChars (.obj []) ++ rest = lbrace :: (rbrace :: rest) := by
        simp [dumpChars, dumpMems]
      rw [hin, show deref (.obj []) = .obj [] by simp [deref, derefMembers]]
      rfl
  | .obj ((k, v) :: ms) => by
    intro f rest hsafe hf hrest
    simp only [roundtripSafe, roundtripSafeMembers, Bool.and_eq_true] at hsafe
    simp only [needVal] at hf
    cases f with
    | zero => omega
    | succ f2 =>
      have hm : parseMember f2
          ('"' :: (escChars k.data ++
            ('"' :: (':' :: (' ' :: (dumpChars v ++ (sepMems ms ++ (rbrace :: rest)))))))) =
          some ((k, deref v), sepMems ms ++ (rbrace :: rest)) :=
        parse_dump_member (k, v) f2 _ hsafe.1.1 hsafe.1.2
          (by show 1 + needVal v ≤ f2; omega) (sepMems_closer_head ms rest)
      have ht : parseObjTail f2 (sepMems ms ++ (rbrace :: rest)) =
          some (derefMembers ms, rest) :=
        parse_dump_objTail ms f2 rest hsafe.2 (by omega) hrest
      have hin : dumpChars (.obj ((k, v) :: ms)) ++ rest =
          lbrace :: ('"' :: (escChars k.data ++
            ('"' :: (':' :: (' ' :: (dumpChars v ++ (sepMems ms ++ (rbrace :: rest)))))))) := by
        simp [dumpChars, dumpMems_cons k v ms]
      rw [hin,
        show deref (.obj ((k, v) :: ms)) = .obj ((k, deref v) :: derefMembers ms) by
          simp [deref, derefMembers]]
      simp only [parseVal]
      rw [show skipWs (lbrace :: ('"' :: (escChars k.data ++
          ('"' :: (':' :: (' ' :: (dumpChars v ++ (sepMems ms ++ (rbrace :: rest))))))))) =
        lbrace :: ('"' :: (escChars k.data ++
          ('"' :: (':' :: (' ' :: (dumpChars v ++ (sepMems ms ++ (rbrace :: rest)))))))) from
        rfl]
      dsimp only
      rw [if_neg (show ¬lbrace = '[' by decide), if_pos rfl,
        show skipWs ('"' :: (escChars k.data ++
          ('"' :: (':' :: (' ' :: (dumpChars v ++ (sepMems ms ++ (rbrace :: rest)))))))) =
        '"' :: (escChars k.data ++
          ('"' :: (':' :: (' ' :: (dumpChars v ++ (sepMems ms ++ (rbrace :: rest))))))) from
        rfl]
      dsimp only
      rw [if_neg (show ¬('"' : Char) = rbrace by decide), hm]
      dsimp only
      rw [ht]

theorem parse_dump_arrTail : (xs : List RawValue) → ∀ (f : Nat) (rest : List Char),
    roundtripSafeList xs = true → needTail xs ≤ f →
    (∀ c, rest.head? = some c → isDigitCh c = false) →
    parseArrTail f (sepSeq xs ++ (']' :: rest)) = some (derefList xs, rest)
  | [] => by
    intro f rest hsafe hf hrest
    cases f with
    | zero => simp [needTail] at hf
    | succ f2 =>
      rw [show sepSeq [] ++ (']' :: rest) = ']' :: rest by simp [sepSeq],
        show derefList [] = [] by simp [derefList]]
      rfl
  | y :: t => by
    intro f rest hsafe hf hrest
    simp only [roundtripSafeList, Bool.and_eq_true] at hsafe
    simp only [needTail] at hf
    cases f with
    | zero => omega
    | succ f2 =>
      have hy : parseVal f2 (dumpChars y ++ (sepSeq t ++ (']' :: rest))) =
          some (deref y, sepSeq t ++ (']' :: rest)) :=
        parse_dump_val y f2 _ hsafe.1 (by omega) (sepSeq_closer_head t rest)
      have ht : parseArrTail f2 (sepSeq t ++ (']' :: rest)) = some (derefList t, rest) :=
        parse_dump_arrTail t f2 rest hsafe.2 (by omega) hrest
      have hin : sepSeq (y :: t) ++ (']' :: rest) =
          ',' :: (' ' :: (dumpChars y ++ (sepSeq t ++ (']' :: rest)))) := by
        simp [sepSeq]
      rw [hin, show derefList (y :: t) = deref y :: derefList t by simp [derefList]]
      simp only [parseArrTail]
      rw [show skipWs (',' :: (' ' :: (dumpChars y ++ (sepSeq t ++ (']' :: rest))))) =
        ',' :: (' ' :: (dumpChars y ++ (sepSeq t ++ (']' :: rest)))) from rfl]
      dsimp only
      rw [if_pos rfl, parseVal_space f2 (dumpChars y ++ (sepSeq t ++ (']' :: rest))), hy]
      dsimp only
      rw [ht]

theorem parse_dump_member : (m : String × RawValue) → ∀ (f : Nat) (rest : List Char),
    strOk m.1 = true → roundtripSafe m.2 = true → 1 + needVal m.2 ≤ f →
    (∀ c, rest.head? = some c → isDigitCh c = false) →
    parseMember f
      ('"' :: (escChars m.1.data ++ ('"' :: (':' :: (' ' :: (dumpChars m.2 ++ rest)))))) =
      some ((m.1, deref m.2), rest)
  | (k, v) => by
    intro f rest hk hv hf hrest
    cases f with
    | zero => omega
    | succ f2 =>
      have hf2 : 1 + needVal v ≤ f2 + 1 := hf
      have hval : parseVal f2 (dumpChars v ++ rest) = some (deref v, rest) :=
        parse_dump_val v f2 rest hv (by omega) hrest
      simp only [parseMember]
      rw [show skipWs ('"' :: (escChars k.data ++
          ('"' :: (':' :: (' ' :: (dumpChars v ++ rest)))))) =
        '"' :: (escChars k.data ++ ('"' :: (':' :: (' ' :: (dumpChars v ++ rest))))) from rfl]
      dsimp only
      rw [if_pos rfl,
        parseStrChars_esc k.data (':' :: (' ' :: (dumpChars v ++ rest))) (strOk_ge32 k hk)]
      dsimp only
      rw [show skipWs (':' :: (' ' :: (dumpChars v ++ rest))) =
        ':' :: (' ' :: (dumpChars v ++ rest)) from rfl]
      dsimp only
      rw [if_pos rfl, parseVal_space f2 (dumpChars v ++ rest), hval]

theorem parse_dump_objTail :
    (ms : List (String × RawValue)) → ∀ (f : Nat) (rest : List Char),
    roundtripSafeMembers ms = true → needObjTail ms ≤ f →
    (∀ c, rest.head? = some c → isDigitCh c = false) →
    parseObjTail f (sepMems ms ++ (rbrace :: rest)) = some (derefMembers ms, rest)
  | [] => by
    intro f rest hsafe hf hrest
    cases f with
    | zero => simp [needObjTail] at hf
    | succ f2 =>
      rw [show sepMems [] ++ (rbrace :: rest) = rbrace :: rest by simp [sepMems],
        show derefMembers [] = [] by simp [derefMembers]]
      rfl
  | (k, v) :: t => by
    intro f rest hsafe hf hrest
    simp only [roundtripSafeMembers, Bool.and_eq_true] at hsafe
    simp only [needObjTail] at hf
    cases f with
    | zero => omega
    | succ f2 =>
      have hm : parseMember f2
          ('"' :: (escChars k.data ++
            ('"' :: (':' :: (' ' :: (dumpChars v ++ (sepMems t ++ (rbrace :: rest)))))))) =
          some ((k, deref v), sepMems t ++ (rbrace :: rest)) :=
        parse_dump_member (k, v) f2 _ hsafe.1.1 hsafe.1.2
          (by show 1 + needVal v ≤ f2; omega) (sepMems_closer_head t rest)
      have ht : parseObjTail f2 (sepMems t ++ (rbrace :: rest)) =
          some (derefMembers t, rest) :=
        parse_dump_objTail t f2 rest hsafe.2 (by omega) hrest
      have hin : sepMems ((k, v) :: t) ++ (rbrace :: rest) =
          ',' :: (' ' :: ('"' :: (escChars k.data ++
            ('"' :: (':' :: (' ' :: (dumpChars v ++ (sepMems t ++ (rbrace :: rest))))))))) := by
        simp [sepMems]
      rw [hin,
        show derefMembers ((k, v) :: t) = (k, deref v) :: derefMembers t by
          simp [derefMembers]]
      simp only [parseObjTail]
      rw [show skipWs (',' :: (' ' :: ('"' :: (escChars k.data ++
          ('"' :: (':' :: (' ' :: (dumpChars v ++ (sepMems t ++ (rbrace :: rest)))))))))) =
        ',' :: (' ' :: ('"' :: (escChars k.data ++
          ('"' :: (':' :: (' ' :: (dumpChars v ++ (sepMems t ++ (rbrace :: rest))))))))) from
        rfl]
      dsimp only
      rw [if_pos rfl, parseMember_space f2 _, hm]
      dsimp only
      rw [ht]

end

mutual

theorem deref_idem : (v : RawValue) → deref (deref v) = deref v
  | .null => by simp [deref]
  | .boolean b => by simp [deref]
  | .num n => by simp [deref]
  | .str s => by simp [deref]
  | .arr xs => by simp [deref, derefList_idem xs]
  | .arrP xs => by simp [deref, derefList_idem xs]
  | .obj kvs => by simp [deref, derefMembers_idem kvs]

theorem derefList_idem : (xs : List RawValue) → derefList (derefList xs) = derefList xs
  | [] => by simp [derefList]
  | x :: t => by simp [derefList, deref_idem x, derefList_idem t]

theorem derefMembers_idem :
    (ms : List (String × RawValue)) → derefMembers (derefMembers ms) = derefMembers ms
  | [] => by simp [derefMembers]
  | (k, v) :: t => by simp [derefMembers, deref_idem v, derefMembers_idem t]

end

/-- C1 counterexample: the serializer prints JSON null with the `%v` verb of
a nil interface, producing the text `<nil>`, which the JSON parser rejects —
so `parse(serialize(null))` fails instead of reconstructing the tree, even
though null contains no non-BMP and no control-character strings. -/
theorem C1_counterexample :
    dumpString RawValue.null = "<nil>" ∧ NewByBytes (dumpString RawValue.null) = none := by
  have h : dumpString RawValue.null = "<nil>" := by
    rw [show dumpString RawValue.null = String.mk (Dump RawValue.null []) from rfl,
      Dump_eq RawValue.null [], show dumpChars RawValue.null = "<nil>".data by
        simp [dumpChars]]
    rfl
  exact ⟨h, by rw [h]; rfl⟩

/-- C1 (amended): for every Value containing no Null, no non-BMP and no
control-character strings, parsing the serializer's output succeeds and
reconstructs a structurally equal tree (equal after collapsing the two array
representations) — whether the value is a scalar (bool, number, string), an
array, or an object, at any nesting depth. -/
theorem C1_roundtrip (v : RawValue) (h : roundtripSafe v = true) :
    NewByBytes (dumpString v) = some (deref v) ∧ structEq (deref v) v := by
  constructor
  · have hdata : (dumpString v).data = dumpChars v := by
      rw [show (dumpString v).data = Dump v [] from rfl, Dump_eq v []]
      simp
    unfold NewByBytes
    rw [hdata]
    have hp : parseVal ((dumpChars v).length + 1) (dumpChars v ++ []) =
        some (deref v, []) :=
      parse_dump_val v _ [] h (by have := needVal_le v; omega)
        (by intro c hc; simp at hc)
    rw [List.append_nil] at hp
    rw [hp]
    rfl
  · show deref (deref v) = deref v
    exact deref_idem v

/-- C1 witness. -/
theorem C1_roundtrip_witness :
    NewByBytes (dumpString (.boolean true)) = some (deref (.boolean true)) ∧
      structEq (deref (.boolean true)) (.boolean true) :=
  C1_roundtrip (.boolean true) (by simp [roundtripSafe])

end Dynajson


